import Mathlib

/-!
Verification development for the GROMACS interoperability layer of
openff-interchange (files `openff/interchange/interop/internal/gromacs.py`
and `openff/system/interop/internal.py`).

The Python data model is shallowly embedded as follows:

* unit-carrying quantities are embedded as their magnitudes in the unit the
  code converts to at the point of use (`.m_as(...)` / `.to(...).magnitude`),
  as exact rationals (`ℚ`);
* values produced by `math.cos`, `math.sin` and `** 0.5` live in an abstract
  linear ordered field `R` with abstract function symbols `rcos`, `rsin`,
  `rsqrt`; the theorems instantiate `R := ℝ` with `Real.cos`, `Real.sin`
  and `Real.sqrt`.  Keeping the carrier abstract keeps every definition
  executable;
* Python dicts keyed by `TopologyKey` / `VirtualSiteKey` / strings are
  association lists; a failed dict access is the `keyError` outcome;
* Python exceptions raised by the exporter are the constructors of
  `GroError`: `unsupportedExport` embeds `UnsupportedExportError`,
  `notImplemented` embeds `NotImplementedError`, `keyError` a `KeyError`,
  `valueError` a `ValueError`, `nameError` the `NameError` raised when a
  loop leaves a local variable unbound, `indexError` an `IndexError`;
* text written to the topology file is modelled as a list of structured
  records (`TopLine`), one per `write` call of a data or comment line;
  a writer is a function returning the lines written before it either
  finished or raised (`EmitResult`), so partial output before a fatal
  error is observable;
* the coordinate (.gro) file is modelled at character level (`List Char`
  per line, without the trailing newline), because the reader's precision
  inference measures column positions of `.` characters.
-/

namespace OffGromacs

/-- `TopologyKey.atom_indices`: an ordered tuple of atom indices. -/
abbrev TopologyKey := List ℕ

/-- `PotentialKey` is embedded as its identifier string. -/
abbrev PotentialKey := String

/-- `openff.interchange.models.VirtualSiteKey`: a topology key tagged with a
virtual-site type and (via `name`) the remaining identifying fields. -/
structure VirtualSiteKey where
  type : String
  atom_indices : List ℕ
  name : String
deriving DecidableEq, BEq

/-- A key of a handler's `slot_map` dict: either a plain `TopologyKey` or a
`VirtualSiteKey` (the vdW slot map holds both kinds). -/
inductive SlotKey where
  | topo (k : TopologyKey)
  | vsite (k : VirtualSiteKey)
deriving DecidableEq, BEq

/-- `top_key.atom_indices` in Python: both key classes expose the attribute. -/
def SlotKey.atom_indices : SlotKey → List ℕ
  | .topo k => k
  | .vsite k => k.atom_indices

/-- A `Potential.parameters` dict: parameter name to magnitude. -/
abbrev Potential := List (String × ℚ)

/-- A potential handler, with the attributes the exporter reads.  The Python
handlers are duck-typed objects; unused attributes default to empty. -/
structure Handler where
  slot_map : List (SlotKey × PotentialKey) := []
  potentials : List (PotentialKey × Potential) := []
  mixing_rule : String := ""
  scale_14 : ℚ := 0
  charges : List (TopologyKey × ℚ) := []
  charges_with_virtual_sites : List (VirtualSiteKey × ℚ) := []

/-- One atom of `topology.mdtop`; its index is its list position. -/
structure Atom where
  element_symbol : String
  atomic_number : ℕ
  element_mass : ℚ
  residue_index : ℕ
  residue_name : String

/-- A 3-vector of magnitudes (nanometers). -/
abbrev Vec3 := ℚ × ℚ × ℚ

/-- The read-only `Interchange` model consumed by the exporter. -/
structure Interchange where
  atoms : List Atom := []
  bonds : List (ℕ × ℕ) := []
  handlers : List (String × Handler) := []
  positions : List Vec3 := []
  box : Option (Vec3 × Vec3 × Vec3) := none

/-- The exceptions the exporter can raise. -/
inductive GroError where
  | unsupportedExport (msg : String)
  | notImplemented (msg : String)
  | keyError
  | valueError
  | nameError
  | indexError
deriving DecidableEq, BEq

/-- A dict access: `d[k]`, raising `KeyError` when absent. -/
def dictGet {α β : Type} [BEq α] (d : List (α × β)) (k : α) : Except GroError β :=
  match d.lookup k with
  | some v => .ok v
  | none => .error .keyError

/-- `openff_sys.handlers[name]` (also `openff_sys[name]`, whose missing-key
`LookupError` is embedded the same way). -/
def getHandler (sys : Interchange) (name : String) : Option Handler :=
  sys.handlers.lookup name

/-- One structured line of the topology file: one constructor per kind of
`write` call that emits a (comment or data) line.  Fields produced by real
float computations live in the abstract carrier `R`. -/
inductive TopLine (R : Type) where
  | comment (s : String)
  | sectionHeader (s : String)
  | defaultsLine (nbfunc comb_rule : ℕ) (gen_pairs : String) (fudgeLJ fudgeQQ : ℚ)
  | atomtypeLJ (atom_type bondingtype : String) (atomic_number : ℕ)
      (mass charge : ℚ) (ptype : String) (sigma epsilon : ℚ)
  | atomtypeVS (atom_type : String) (atomic_number : ℕ)
      (mass charge : ℚ) (ptype : String) (sigma epsilon : ℚ)
  | atomtypeBuck (atom_type : String) (atomic_number : ℕ)
      (mass charge : ℚ) (ptype : String) (a b c : ℚ)
  | moleculetype (name : String) (nrexcl : ℕ)
  | atomLine (num : ℕ) (atom_type : String) (resnum : ℕ)
      (resname atomname : String) (cgnr : ℕ) (charge mass : ℚ)
  | pairLine (ai aj funct : ℕ) (sigma epsilon : R)
  | bondLine (ai aj : ℕ) (func : ℕ) (length k : ℚ)
  | angleLine (ai aj ak : ℕ) (func : ℕ) (theta k : ℚ)
  | dihedralLine (ai aj ak al func : ℕ) (c : List ℚ)
  | vsite2Line (site ai aj funct : ℕ) (a : R)
  | vsite3Line (site ai aj ak funct : ℕ) (coeffs : List R)
  | exclusionLine (site : ℕ) (parents : List ℕ)
  | systemLine (s : String)
  | moleculesLine (name : String) (nmols : ℕ)
deriving DecidableEq

/-- The outcome of running a writer: the lines it wrote before finishing
(`err = none`) or before raising (`err = some e`). -/
structure EmitResult (R : Type) where
  lines : List (TopLine R)
  err : Option GroError

/-- A writer that only writes. -/
def put {R : Type} (ls : List (TopLine R)) : EmitResult R := ⟨ls, none⟩

/-- A writer that raises immediately. -/
def raiseE {R : Type} (e : GroError) : EmitResult R := ⟨[], some e⟩

/-- Sequence two writers: the second runs only if the first did not raise. -/
def EmitResult.seq {R : Type} (r1 r2 : EmitResult R) : EmitResult R :=
  match r1.err with
  | some _ => r1
  | none => ⟨r1.lines ++ r2.lines, r2.err⟩

/-- Lift a fallible per-entry computation into a writer. -/
def emitOf {R : Type} (x : Except GroError (List (TopLine R))) : EmitResult R :=
  match x with
  | .ok ls => ⟨ls, none⟩
  | .error e => ⟨[], some e⟩

/-- A `for` loop writing per-entry lines, stopping at the first raise. -/
def emitEach {R α : Type} (xs : List α)
    (f : α → Except GroError (List (TopLine R))) : EmitResult R :=
  match xs with
  | [] => ⟨[], none⟩
  | x :: rest =>
    match f x with
    | .error e => ⟨[], some e⟩
    | .ok ls => (put ls).seq (emitEach rest f)

/-- Python `sorted` on a list of naturals (`sorted` is a stable sort;
insertion sort is one). -/
def pySorted (l : List ℕ) : List ℕ := l.insertionSort (· ≤ ·)

/-- `handler.potentials[handler.slot_map[key]].parameters[name]` for a
virtual-site key (gromacs.py lines 712-718 and analogous accesses). -/
def vsParam (vsh : Handler) (key : VirtualSiteKey) (name : String) :
    Except GroError ℚ := do
  let pk ← dictGet vsh.slot_map (.vsite key)
  let pot ← dictGet vsh.potentials pk
  dictGet pot name

/-- `openff_sys[cat].potentials[openff_sys[cat].slot_map[k]].parameters[name]`:
the direct (no reversal) lookup used for the Bonds/Angles parameters of a
DivalentLonePair's parents (gromacs.py lines 798-823). -/
def categoryParam (sys : Interchange) (cat : String) (k : TopologyKey)
    (name : String) : Except GroError ℚ := do
  let h ← match getHandler sys cat with
          | some h => Except.ok h
          | none => Except.error GroError.keyError
  let pk ← dictGet h.slot_map (.topo k)
  let pot ← dictGet h.potentials pk
  dictGet pot name

/-- The `BondCharge` branch of `_write_virtual_sites`
(gromacs.py lines 698-724): the line written for one such site. -/
def bondChargeLine (R : Type) [LinearOrderedField R] (vsh : Handler)
    (vsmap : List (SlotKey × ℕ)) (key : VirtualSiteKey) :
    Except GroError (TopLine R) := do
  let reference_atoms := key.atom_indices
  match reference_atoms with
  | [atom1, atom2] => do
    let virtual_site_index ← dictGet vsmap (.vsite key)
    let distance ← vsParam vsh key "distance"
    let a := distance
    pure (.vsite2Line virtual_site_index (atom1 + 1) (atom2 + 1) 2 (a : R))
  | _ => .error (.notImplemented "")

/-- The `MonovalentLonePair` branch of `_write_virtual_sites`
(gromacs.py lines 726-777): the line written for one such site.
`outOfPlaneAngle` is taken in radians, `inPlaneAngle` in degrees. -/
def monovalentLine (R : Type) [LinearOrderedField R] (vsh : Handler)
    (vsmap : List (SlotKey × ℕ)) (key : VirtualSiteKey) :
    Except GroError (TopLine R) := do
  match pySorted key.atom_indices with
  | [atom1, atom2, atom3] => do
    let virtual_site_index ← dictGet vsmap (.vsite key)
    let out_of_plane_angle ← vsParam vsh key "outOfPlaneAngle"
    if out_of_plane_angle ≠ 0 then
      throw (.notImplemented
        "Unclear how to do MonovalentLonePair virtual sites with GROMACS")
    else do
      let distance ← vsParam vsh key "distance"
      let in_plane_angle ← vsParam vsh key "inPlaneAngle"
      let in_plane_angle_transformed := 180 - in_plane_angle
      pure (.vsite3Line virtual_site_index (atom1 + 1) (atom2 + 1) (atom3 + 1) 3
        [(in_plane_angle_transformed : R), (distance : R)])
  | _ => .error (.notImplemented "")

/-- The `DivalentLonePair` branch of `_write_virtual_sites`
(gromacs.py lines 779-861): the line written for one such site.  Bond
lengths and `distance` are in nanometers, both angles in radians; `rcos`
and `rsin` embed `math.cos` and `math.sin`. -/
def divalentLine (R : Type) [LinearOrderedField R] (rcos rsin : R → R)
    (sys : Interchange) (vsh : Handler) (vsmap : List (SlotKey × ℕ))
    (key : VirtualSiteKey) : Except GroError (TopLine R) := do
  match pySorted key.atom_indices with
  | [atom1, atom2, atom3] => do
    let virtual_site_index ← dictGet vsmap (.vsite key)
    let bond1_length ← categoryParam sys "Bonds" [atom1, atom2] "length"
    let bond2_length ← categoryParam sys "Bonds" [atom1, atom3] "length"
    if bond1_length ≠ bond2_length then
      throw (.notImplemented "")
    else do
      let angle ← categoryParam sys "Angles" [atom2, atom1, atom3] "angle"
      let distance ← vsParam vsh key "distance"
      let out_of_plane_angle ← vsParam vsh key "outOfPlaneAngle"
      if out_of_plane_angle = 0 then
        let a : R := -1 * (distance : R) / (rcos ((angle : R) / 2) * (bond1_length : R)) / 2
        pure (.vsite3Line virtual_site_index (atom1 + 1) (atom2 + 1) (atom3 + 1) 1 [a, a])
      else
        let a : R := (-1 * (distance : R) * rcos (out_of_plane_angle : R)) /
          (2 * (bond1_length : R) * rcos ((angle : R) / 2))
        let c : R := (-1 * (distance : R) * rsin (out_of_plane_angle : R)) /
          ((bond1_length : R) ^ 2 * rsin (angle : R))
        pure (.vsite3Line virtual_site_index (atom1 + 1) (atom2 + 1) (atom3 + 1) 4 [a, a, c])
  | _ => .error (.notImplemented "")

/-- `k.type` as read in the supported-kind check of `_write_virtual_sites`;
only `VirtualSiteKey`s occur as keys of the VirtualSites slot map. -/
def SlotKey.vsiteType : SlotKey → String
  | .topo _ => ""
  | .vsite v => v.type

/-- The loop body of `_write_virtual_sites` (gromacs.py lines 694-861),
threading the `started_virtual_sites2/3` header flags.  The three `if`
branches of the Python loop are mutually exclusive on `key.type`. -/
def vsiteEntries (R : Type) [LinearOrderedField R] (rcos rsin : R → R)
    (sys : Interchange) (vsh : Handler) (vsmap : List (SlotKey × ℕ)) :
    Bool → Bool → List VirtualSiteKey → EmitResult R
  | _, _, [] => ⟨[], none⟩
  | s2, s3, key :: rest =>
    if key.type == "BondCharge" then
      (put (R := R) (if s2 then [] else [.sectionHeader "virtual_sites2",
          .comment "; site  ai  aj  funct   a"])).seq <|
        (emitOf ((bondChargeLine R vsh vsmap key).map (fun l => [l]))).seq
          (vsiteEntries R rcos rsin sys vsh vsmap true s3 rest)
    else if key.type == "MonovalentLonePair" then
      (put (R := R) (if s3 then [] else [.sectionHeader "virtual_sites3",
          .comment "; site  ai  aj  ak funct   a   b"])).seq <|
        (emitOf ((monovalentLine R vsh vsmap key).map (fun l => [l]))).seq
          (vsiteEntries R rcos rsin sys vsh vsmap s2 true rest)
    else if key.type == "DivalentLonePair" then
      (put (R := R) (if s3 then [] else [.sectionHeader "virtual_sites3",
          .comment "; site  ai  aj  ak funct   a   b"])).seq <|
        (emitOf ((divalentLine R rcos rsin sys vsh vsmap key).map (fun l => [l]))).seq
          (vsiteEntries R rcos rsin sys vsh vsmap s2 true rest)
    else
      vsiteEntries R rcos rsin sys vsh vsmap s2 s3 rest

/-- The `[ exclusions ]` loop of `_write_virtual_sites`
(gromacs.py lines 863-869): one line per slot-map key, in declaration
order, listing the 1-based parent indices. -/
def exclusionLines (R : Type) (vsmap : List (SlotKey × ℕ)) (keys : List SlotKey) :
    EmitResult R :=
  emitEach keys (fun k => do
    let virtual_site_index ← dictGet vsmap k
    pure [TopLine.exclusionLine virtual_site_index (k.atom_indices.map (· + 1))])

/-- `_write_virtual_sites` (gromacs.py lines 674-871). -/
def writeVirtualSites (R : Type) [LinearOrderedField R] (rcos rsin : R → R)
    (sys : Interchange) (vsmap : List (SlotKey × ℕ)) : EmitResult R :=
  match getHandler sys "VirtualSites" with
  | none => ⟨[], none⟩
  | some vsh =>
    if ¬ (vsh.slot_map.all (fun kp =>
        ["BondCharge", "MonovalentLonePair", "DivalentLonePair"].contains
          kp.1.vsiteType)) then
      raiseE (.notImplemented "Only BondCharge virtual sites are implemented")
    else
      (vsiteEntries R rcos rsin sys vsh vsmap false false
        (((vsh.slot_map.map Prod.fst).filterMap (fun k =>
            match k with
            | .vsite v => some v
            | .topo _ => none)).insertionSort
          (fun a b => a.type ≤ b.type))).seq <|
        (put [.sectionHeader "exclusions"]).seq
          (exclusionLines R vsmap (vsh.slot_map.map Prod.fst))

/-- `_write_top_defaults`, continuation after the handler branch
(gromacs.py lines 383-410): mixing-rule dispatch, then the data line. -/
def defaultsRest (R : Type) (sys : Interchange) (nbfunc : ℕ) (scale_lj : ℚ)
    (gen_pairs : String) (handler_key : String) (h : Handler) : EmitResult R :=
  let mixing_rule := h.mixing_rule
  emitOf (do
    let comb_rule ←
      if mixing_rule == "lorentz-berthelot" then Except.ok 2
      else if mixing_rule == "geometric" then Except.ok 3
      else if mixing_rule == "buckingham" && handler_key == "Buckingham-6" then
        Except.ok 2
      else
        Except.error (GroError.unsupportedExport
          ("Mixing rule `" ++ mixing_rule ++
           " not compatible with GROMACS and/or not supported by current " ++
           "exporter. Supported values are `lorentez-berthelot` and `geometric`."))
    let elec ← match getHandler sys "Electrostatics" with
               | some e => Except.ok e
               | none => Except.error GroError.keyError
    Except.ok [TopLine.defaultsLine nbfunc comb_rule gen_pairs scale_lj
      elec.scale_14])

/-- `_write_top_defaults` (gromacs.py lines 362-410). -/
def writeTopDefaults (R : Type) (sys : Interchange) : EmitResult R :=
  (put [.sectionHeader "defaults",
        .comment "; nbfunc\tcomb-rule\tgen-pairs\tfudgeLJ\tfudgeQQ"]).seq
    (match getHandler sys "vdW" with
     | some h => defaultsRest R sys 1 h.scale_14 "no" "vdW" h
     | none =>
       match getHandler sys "Buckingham-6" with
       | some h => defaultsRest R sys 2 h.scale_14 "no" "Buckingham-6" h
       | none => raiseE (.unsupportedExport
           ("Could not find a handler for short-ranged vdW interactions " ++
            "that is compatible with GROMACS. Looked for handlers named " ++
            "`vdW` and `Buckingham-6`.")))

/-- Worker for `_build_typemap`, threading the per-element counters. -/
def buildTypemapAux : List Atom → List (String × ℕ) → List String
  | [], _ => []
  | a :: rest, elements =>
    let c := ((elements.lookup a.element_symbol).getD 0) + 1
    (a.element_symbol ++ toString c) ::
      buildTypemapAux rest ((a.element_symbol, c) :: elements)

/-- `_build_typemap` (gromacs.py lines 413-431); the dict is keyed by the
contiguous `atom.index`, so it is embedded positionally. -/
def buildTypemap (atoms : List Atom) : List String := buildTypemapAux atoms []

/-- `_build_virtual_site_map` (gromacs.py lines 434-450). -/
def buildVirtualSiteMap (sys : Interchange) : List (SlotKey × ℕ) :=
  match getHandler sys "VirtualSites" with
  | none => []
  | some h =>
    (h.slot_map.map Prod.fst).enum.map
      (fun p => (p.2, sys.atoms.length + 1 + p.1))

/-- `_get_lj_parameters` (gromacs.py lines 1074-1081). -/
def getLJParameters (sys : Interchange) (atom_idx : ℕ) :
    Except GroError Potential := do
  let vdw ← match getHandler sys "vdW" with
            | some h => Except.ok h
            | none => Except.error GroError.keyError
  let pk ← dictGet vdw.slot_map (.topo [atom_idx])
  dictGet vdw.potentials pk

/-- `_get_buck_parameters` (gromacs.py lines 1084-1091). -/
def getBuckParameters (sys : Interchange) (atom_idx : ℕ) :
    Except GroError Potential := do
  let buck ← match getHandler sys "Buckingham-6" with
             | some h => Except.ok h
             | none => Except.error GroError.keyError
  let pk ← dictGet buck.slot_map (.topo [atom_idx])
  dictGet buck.potentials pk

/-- `_write_atomtypes_lj` (gromacs.py lines 474-530). -/
def writeAtomtypesLJ (R : Type) (sys : Interchange) (typemap : List String)
    (vsmap : List (SlotKey × ℕ)) : EmitResult R :=
  (put [.sectionHeader "atomtypes",
        .comment ";type, bondingtype, atomic_number, mass, charge, ptype, sigma, epsilon"]).seq <|
  (emitEach typemap.enum (fun p => do
    let atom ← match sys.atoms.get? p.1 with
               | some a => Except.ok a
               | none => Except.error GroError.indexError
    let parameters ← getLJParameters sys p.1
    let sigma ← dictGet parameters "sigma"
    let epsilon ← dictGet parameters "epsilon"
    Except.ok [TopLine.atomtypeLJ p.2 "XX" atom.atomic_number atom.element_mass
      0 "A" sigma epsilon])).seq <|
  emitEach vsmap (fun p => do
    let vdw_handler ← match getHandler sys "vdW" with
                      | some h => Except.ok h
                      | none => Except.error GroError.keyError
    let pot_key ← dictGet vdw_handler.slot_map p.1
    let pot ← dictGet vdw_handler.potentials pot_key
    let sigma ← dictGet pot "sigma"
    let epsilon ← dictGet pot "epsilon"
    Except.ok [TopLine.atomtypeVS "VS" 0 0 0 "A" sigma epsilon])

/-- `_write_atomtypes_buck` (gromacs.py lines 533-560). -/
def writeAtomtypesBuck (R : Type) (sys : Interchange) (typemap : List String) :
    EmitResult R :=
  (put [.sectionHeader "atomtypes",
        .comment ";type, bondingtype, atomic_number, mass, charge, ptype, sigma, epsilon"]).seq <|
  emitEach typemap.enum (fun p => do
    let atom ← match sys.atoms.get? p.1 with
               | some a => Except.ok a
               | none => Except.error GroError.indexError
    let parameters ← getBuckParameters sys p.1
    let a ← dictGet parameters "A"
    let b ← dictGet parameters "B"
    let c ← dictGet parameters "C"
    Except.ok [TopLine.atomtypeBuck p.2 atom.atomic_number atom.element_mass
      0 "A" a b c])

/-- `_write_atomtypes` (gromacs.py lines 453-471). -/
def writeAtomtypes (R : Type) (sys : Interchange) (typemap : List String)
    (vsmap : List (SlotKey × ℕ)) : EmitResult R :=
  match getHandler sys "vdW" with
  | some _ =>
    match getHandler sys "Buckingham-6" with
    | some _ => raiseE (.unsupportedExport
        "Cannot mix 12-6 and Buckingham potentials in GROMACS")
    | none => writeAtomtypesLJ R sys typemap vsmap
  | none =>
    match getHandler sys "Buckingham-6" with
    | some _ => writeAtomtypesBuck R sys typemap
    | none => raiseE (.unsupportedExport "No vdW interactions found")

/-- `_write_moleculetype` (gromacs.py lines 563-567). -/
def writeMoleculetype (R : Type) : EmitResult R :=
  put [.sectionHeader "moleculetype", .comment "; Name\tnrexcl",
       .moleculetype "MOL" 3]

/-- Bond adjacency in the `mdtop` bonded graph, in either direction. -/
def adjacentB (bonds : List (ℕ × ℕ)) (a b : ℕ) : Bool :=
  bonds.any (fun p => (p.1 == a && p.2 == b) || (p.1 == b && p.2 == a))

/-- Modelled from the spec: the torsion walks underlying
`_iterate_pairs` / `_iterate_propers` of
`openff.interchange.components.mdtraj` (not part of the sources): all
ordered quadruples of pairwise distinct atoms joined by three bonds
(spec 4.3: "every pair of atoms connected by exactly three bonds (i.e.,
the endpoints of a torsion)"). -/
def torsionWalks (n : ℕ) (bonds : List (ℕ × ℕ)) : List (ℕ × ℕ × ℕ × ℕ) :=
  (List.range n).flatMap (fun w =>
    (List.range n).flatMap (fun x =>
      (List.range n).flatMap (fun y =>
        (List.range n).filterMap (fun z =>
          if adjacentB bonds w x && adjacentB bonds x y && adjacentB bonds y z
              && !(w == x) && !(w == y) && !(w == z)
              && !(x == y) && !(x == z) && !(y == z)
          then some (w, x, y, z) else none))))

/-- Modelled from the spec: `_iterate_pairs` of
`openff.interchange.components.mdtraj` (not part of the sources), spec 4.3:
for every torsion walk, the endpoint pair keyed by the sorted index pair. -/
def iteratePairs (n : ℕ) (bonds : List (ℕ × ℕ)) : List (ℕ × ℕ) :=
  (torsionWalks n bonds).map (fun t => (min t.1 t.2.2.2, max t.1 t.2.2.2))

/-- Modelled from the spec: `_iterate_angles` of
`openff.interchange.components.mdtraj` (not part of the sources): each
bonded triple, enumerated once in a canonical orientation. -/
def iterateAngles (n : ℕ) (bonds : List (ℕ × ℕ)) : List (ℕ × ℕ × ℕ) :=
  (List.range n).flatMap (fun a =>
    (List.range n).flatMap (fun b =>
      (List.range n).filterMap (fun c =>
        if adjacentB bonds a b && adjacentB bonds b c && decide (a < c)
            && !(a == b) && !(b == c)
        then some (a, b, c) else none)))

/-- Modelled from the spec: `_iterate_propers` of
`openff.interchange.components.mdtraj` (not part of the sources): each
torsion walk, enumerated once in a canonical orientation. -/
def iteratePropers (n : ℕ) (bonds : List (ℕ × ℕ)) : List (ℕ × ℕ × ℕ × ℕ) :=
  (torsionWalks n bonds).filter (fun t => decide (t.1 < t.2.2.2))

/-- Modelled from the spec: `_iterate_impropers` of
`openff.interchange.components.mdtraj` (not part of the sources): a central
atom with three distinct neighbours, second slot central. -/
def iterateImpropers (n : ℕ) (bonds : List (ℕ × ℕ)) : List (ℕ × ℕ × ℕ × ℕ) :=
  (List.range n).flatMap (fun a =>
    (List.range n).flatMap (fun b =>
      (List.range n).flatMap (fun c =>
        (List.range n).filterMap (fun d =>
          if adjacentB bonds b a && adjacentB bonds b c && adjacentB bonds b d
              && decide (a < c) && decide (c < d)
          then some (a, b, c, d) else none))))

/-- Python `tuple(sorted((a, b)))` on a pair of atom indices. -/
def pySortedPair (p : ℕ × ℕ) : ℕ × ℕ := (min p.1 p.2, max p.1 p.2)

/-- The body of the `[ pairs ]` loop of `_write_atoms`
(gromacs.py lines 649-671); `rsqrt` embeds `** 0.5`. -/
def pairEntry (R : Type) [LinearOrderedField R] (rsqrt : R → R)
    (sys : Interchange) (mixing_rule : String) (scale_lj : ℚ) (pair : ℕ × ℕ) :
    Except GroError (List (TopLine R)) := do
  let indices := pySortedPair pair
  let parameters1 ← getLJParameters sys indices.1
  let sigma1 ← dictGet parameters1 "sigma"
  let epsilon1 ← dictGet parameters1 "epsilon"
  let parameters2 ← getLJParameters sys indices.2
  let sigma2 ← dictGet parameters2 "sigma"
  let epsilon2 ← dictGet parameters2 "epsilon"
  let epsilon_mix : R := rsqrt ((epsilon1 : R) * (epsilon2 : R))
  let sigma_mix : R ←
    if mixing_rule == "lorentz-berthelot" then
      Except.ok (((sigma1 : R) + (sigma2 : R)) * 0.5)
    else if mixing_rule == "geometric" then
      Except.ok (rsqrt ((sigma1 : R) * (sigma2 : R)))
    else
      Except.error GroError.nameError
  Except.ok [TopLine.pairLine (indices.1 + 1) (indices.2 + 1) 1 sigma_mix
    (epsilon_mix * (scale_lj : R))]

/-- The `[ pairs ]` part of `_write_atoms` (gromacs.py lines 635-671),
after the headers: handler fallback, set-based dedup, loop. -/
def writePairs (R : Type) [LinearOrderedField R] (rsqrt : R → R)
    (sys : Interchange) : EmitResult R :=
  match getHandler sys "vdW" with
  | some h =>
    emitEach ((iteratePairs sys.atoms.length sys.bonds).dedup)
      (pairEntry R rsqrt sys h.mixing_rule h.scale_14)
  | none =>
    match getHandler sys "Buckingham-6" with
    | some h =>
      emitEach ((iteratePairs sys.atoms.length sys.bonds).dedup)
        (pairEntry R rsqrt sys h.mixing_rule h.scale_14)
    | none => raiseE .keyError

/-- The per-atom body of the `[ atoms ]` loop of `_write_atoms`
(gromacs.py lines 582-607). -/
def atomEntry (R : Type) (he : Handler) (typemap : List String)
    (p : ℕ × Atom) : Except GroError (List (TopLine R)) := do
  let atom_idx := p.1
  let atom_type ← match typemap.get? atom_idx with
                  | some t => Except.ok t
                  | none => Except.error GroError.keyError
  let charge ← dictGet he.charges [atom_idx]
  Except.ok [TopLine.atomLine (atom_idx + 1) atom_type (p.2.residue_index + 1)
    p.2.residue_name atom_type (atom_idx + 1) charge p.2.element_mass]

/-- The per-virtual-site body of the `[ atoms ]` loop of `_write_atoms`
(gromacs.py lines 609-633). -/
def vsAtomEntry (R : Type) (he : Handler) (p : SlotKey × ℕ) :
    Except GroError (List (TopLine R)) := do
  let charge ← match p.1 with
               | .vsite v => dictGet he.charges_with_virtual_sites v
               | .topo _ => Except.error GroError.keyError
  Except.ok [TopLine.atomLine p.2 "VS" 1 "1" "VS" p.2 charge 0]

/-- `_write_atoms` (gromacs.py lines 570-671): the `[ atoms ]` and
`[ pairs ]` sections. -/
def writeAtoms (R : Type) [LinearOrderedField R] (rsqrt : R → R)
    (sys : Interchange) (typemap : List String) (vsmap : List (SlotKey × ℕ)) :
    EmitResult R :=
  (put [.sectionHeader "atoms",
        .comment ";num, type, resnum, resname, atomname, cgnr, q, m"]).seq <|
  match getHandler sys "Electrostatics" with
  | none => raiseE .keyError
  | some he =>
    (emitEach sys.atoms.enum (fun p => atomEntry R he typemap (p.1, p.2))).seq <|
    (emitEach vsmap (vsAtomEntry R he)).seq <|
    (put [.sectionHeader "pairs", .comment "; ai\taj\tfunct\n"]).seq
      (writePairs R rsqrt sys)

/-- The forward/reverse resolution loop of `_write_bonds`
(gromacs.py lines 896-900): scan the whole slot map; the last matching
entry wins; no match leaves `pot_key` unbound. -/
def resolveBondKey (slot_map : List (SlotKey × PotentialKey))
    (indices : List ℕ) : Option PotentialKey :=
  slot_map.foldl (fun acc kp =>
    if kp.1.atom_indices == indices then some kp.2
    else if kp.1.atom_indices == indices.reverse then some kp.2
    else acc) none

/-- The per-bond body of `_write_bonds` (gromacs.py lines 893-917);
an unresolved bond raises `NameError` at the `pot_key` read (the
`del pot_key` at line 917 guarantees no stale binding is reused). -/
def bondEntry (R : Type) (bond_handler : Handler) (bond : ℕ × ℕ) :
    Except GroError (List (TopLine R)) := do
  let indices := pySortedPair bond
  let pot_key ← match resolveBondKey bond_handler.slot_map
                    [indices.1, indices.2] with
                | some pk => Except.ok pk
                | none => Except.error GroError.nameError
  let params ← dictGet bond_handler.potentials pot_key
  let k ← dictGet params "k"
  let length ← dictGet params "length"
  Except.ok [TopLine.bondLine (indices.1 + 1) (indices.2 + 1) 1 length k]

/-- `_write_bonds` (gromacs.py lines 884-919). -/
def writeBonds (R : Type) (sys : Interchange) : EmitResult R :=
  match getHandler sys "Bonds" with
  | none => ⟨[], none⟩
  | some bond_handler =>
    (put [.sectionHeader "bonds", .comment "; ai\taj\tfunc\tr\tk"]).seq
      (emitEach sys.bonds (bondEntry R bond_handler))

/-- The forward-only resolution loop of `_write_angles`
(gromacs.py lines 939-941); unlike `_write_bonds` there is no `del`, so a
zero-match angle silently reuses the previous iteration's `pot_key`
(carried in `acc`), and only the first angle can raise `NameError`. -/
def resolveAngleKey (slot_map : List (SlotKey × PotentialKey))
    (indices : List ℕ) (acc : Option PotentialKey) : Option PotentialKey :=
  slot_map.foldl (fun a kp =>
    if kp.1.atom_indices == indices then some kp.2 else a) acc

/-- The `[ angles ]` loop of `_write_angles` (gromacs.py lines 933-956),
threading the leaked `pot_key` local. -/
def angleLoop (R : Type) (angle_handler : Handler) :
    Option PotentialKey → List (ℕ × ℕ × ℕ) → EmitResult R
  | _, [] => ⟨[], none⟩
  | prev, t :: rest =>
    match resolveAngleKey angle_handler.slot_map [t.1, t.2.1, t.2.2] prev with
    | none => ⟨[], some .nameError⟩
    | some pot_key =>
      (emitOf (do
        let params ← dictGet angle_handler.potentials pot_key
        let k ← dictGet params "k"
        let theta ← dictGet params "angle"
        Except.ok [TopLine.angleLine (t.1 + 1) (t.2.1 + 1) (t.2.2 + 1) 1
          theta k])).seq
        (angleLoop R angle_handler (some pot_key) rest)

/-- `_write_angles` (gromacs.py lines 922-958). -/
def writeAngles (R : Type) (sys : Interchange) : EmitResult R :=
  match getHandler sys "Angles" with
  | none => ⟨[], none⟩
  | some angle_handler =>
    (put [.sectionHeader "angles", .comment "; ai\taj\tak\tfunc\tr\tk"]).seq
      (angleLoop R angle_handler none
        (iterateAngles sys.atoms.length sys.bonds))

/-- Python `int(...)` on a rational magnitude (truncation toward zero). -/
def pyInt (q : ℚ) : ℤ := Int.tdiv q.num (q.den : ℤ)

/-- The proper-torsion write for one torsion walk
(gromacs.py lines 977-1000): one line per matching slot-map entry. -/
def properEntry (R : Type) (h : Handler) (t : ℕ × ℕ × ℕ × ℕ) :
    Except GroError (List (TopLine R)) := do
  let indices := [t.1, t.2.1, t.2.2.1, t.2.2.2]
  (h.slot_map.filter (fun kp => kp.1.atom_indices == indices)).mapM
    (fun kp => do
      let params ← dictGet h.potentials kp.2
      let k ← dictGet params "k"
      let periodicity := pyInt (← dictGet params "periodicity")
      let phase ← dictGet params "phase"
      let idivf : ℤ := match params.lookup "idivf" with
                       | some v => pyInt v
                       | none => 1
      Except.ok (TopLine.dihedralLine (t.1 + 1) (t.2.1 + 1) (t.2.2.1 + 1)
        (t.2.2.2 + 1) 1 [phase, k / (idivf : ℚ), (periodicity : ℚ)]))

/-- The Ryckaert-Bellemans write for one torsion walk
(gromacs.py lines 1002-1031). -/
def rbEntry (R : Type) (h : Handler) (t : ℕ × ℕ × ℕ × ℕ) :
    Except GroError (List (TopLine R)) := do
  let indices := [t.1, t.2.1, t.2.2.1, t.2.2.2]
  (h.slot_map.filter (fun kp => kp.1.atom_indices == indices)).mapM
    (fun kp => do
      let params ← dictGet h.potentials kp.2
      let c0 ← dictGet params "C0"
      let c1 ← dictGet params "C1"
      let c2 ← dictGet params "C2"
      let c3 ← dictGet params "C3"
      let c4 ← dictGet params "C4"
      let c5 ← dictGet params "C5"
      Except.ok (TopLine.dihedralLine (t.1 + 1) (t.2.1 + 1) (t.2.2.1 + 1)
        (t.2.2.2 + 1) 3 [c0, c1, c2, c3, c4, c5]))

/-- The improper-torsion write for one improper
(gromacs.py lines 1034-1057). -/
def improperEntry (R : Type) (h : Handler) (t : ℕ × ℕ × ℕ × ℕ) :
    Except GroError (List (TopLine R)) := do
  let indices := [t.1, t.2.1, t.2.2.1, t.2.2.2]
  (h.slot_map.filter (fun kp => kp.1.atom_indices == indices)).mapM
    (fun kp => do
      let params ← dictGet h.potentials kp.2
      let k ← dictGet params "k"
      let periodicity := pyInt (← dictGet params "periodicity")
      let phase ← dictGet params "phase"
      let idivf := pyInt (← dictGet params "idivf")
      Except.ok (TopLine.dihedralLine (t.1 + 1) (t.2.1 + 1) (t.2.2.1 + 1)
        (t.2.2.2 + 1) 4 [phase, k / (idivf : ℚ), (periodicity : ℚ)]))

/-- `_write_dihedrals` (gromacs.py lines 961-1057). -/
def writeDihedrals (R : Type) (sys : Interchange) : EmitResult R :=
  let proper_torsion_handler := getHandler sys "ProperTorsions"
  let rb_torsion_handler := getHandler sys "RBTorsions"
  let improper_torsion_handler := getHandler sys "ImproperTorsions"
  if proper_torsion_handler.isNone && rb_torsion_handler.isNone &&
      improper_torsion_handler.isNone then ⟨[], none⟩
  else
    (put [.sectionHeader "dihedrals", .comment ";    i      j      k      l   func"]).seq <|
    (emitEach (iteratePropers sys.atoms.length sys.bonds) (fun t => do
      let l1 ← match proper_torsion_handler with
               | some h => properEntry R h t
               | none => Except.ok []
      let l2 ← match rb_torsion_handler with
               | some h => rbEntry R h t
               | none => Except.ok []
      Except.ok (l1 ++ l2))).seq <|
    emitEach (iterateImpropers sys.atoms.length sys.bonds) (fun t =>
      match improper_torsion_handler with
      | some h => improperEntry R h t
      | none => Except.ok [])

/-- `_write_system` (gromacs.py lines 1060-1071). -/
def writeSystem (R : Type) : EmitResult R :=
  put [.sectionHeader "system", .comment "; name ", .systemLine "System name",
       .sectionHeader "molecules", .comment "; Compound\tnmols",
       .moleculesLine "MOL" 1]

/-- `to_top` (gromacs.py lines 182-216): the full topology export.  The
target file is opened for writing (truncated) before the first byte is
produced, so `lines` is exactly the file content at the moment a raise
aborts the export. -/
def toTop (R : Type) [LinearOrderedField R] (rcos rsin rsqrt : R → R)
    (sys : Interchange) : EmitResult R :=
  (put [.comment "; Generated by OpenFF Interchange"]).seq <|
  (writeTopDefaults R sys).seq <|
  (writeAtomtypes R sys (buildTypemap sys.atoms) (buildVirtualSiteMap sys)).seq <|
  (writeMoleculetype R).seq <|
  (writeAtoms R rsqrt sys (buildTypemap sys.atoms) (buildVirtualSiteMap sys)).seq <|
  (writeBonds R sys).seq <|
  (writeAngles R sys).seq <|
  (writeDihedrals R sys).seq <|
  (writeVirtualSites R rcos rsin sys (buildVirtualSiteMap sys)).seq
    (writeSystem R)

/-! ### The coordinate (.gro) file, at character level -/

/-- Decimal rendering of a natural number, most significant digit first
(the digits of `"%d"`); fuel-based so that it is structurally recursive. -/
def natCharsAux : ℕ → ℕ → List Char
  | 0, _ => []
  | fuel + 1, n =>
    if n = 0 then []
    else natCharsAux fuel (n / 10) ++ [Nat.digitChar (n % 10)]

/-- Decimal rendering of a natural number, as Python `"%d" % n`. -/
def natChars (n : ℕ) : List Char := if n = 0 then ['0'] else natCharsAux n n

/-- The numeric value of a decimal digit string (most significant first). -/
def charsToNat (l : List Char) : ℕ :=
  l.foldl (fun acc c => 10 * acc + (c.toNat - 48)) 0

/-- Right-justify in a field of width `w` (Python `%{w}s` / numeric
formats); content wider than the field is kept unchanged. -/
def padLeftCh (w : ℕ) (s : List Char) : List Char :=
  List.replicate (w - s.length) ' ' ++ s

/-- Left-justify in a field of width `w` (Python `%-{w}s`). -/
def padRightCh (w : ℕ) (s : List Char) : List Char :=
  s ++ List.replicate (w - s.length) ' '

/-- The integer `round(x * 10^P)` with ties rounded up, computed without
rational normalization: `⌊x·10^P + 1/2⌋` as a single integer division. -/
def roundScaled (P : ℕ) (q : ℚ) : ℤ :=
  (2 * q.num * 10 ^ P + (q.den : ℤ)) / (2 * (q.den : ℤ))

/-- Zero-padded `P`-digit rendering of a fractional part `r < 10^P`. -/
def padZeros (P r : ℕ) : List Char :=
  List.replicate (P - (natChars r).length) '0' ++ natChars r

/-- Digits-dot-digits rendering of the magnitude `a / 10^P`. -/
def fracRender (P a : ℕ) : List Char :=
  natChars (a / 10 ^ P) ++ '.' :: padZeros P (a % 10 ^ P)

/-- Fixed-point rendering of the exact value `m / 10^P`. -/
def fmtFInt (P : ℕ) (m : ℤ) : List Char :=
  if m < 0 then '-' :: fracRender P m.natAbs else fracRender P m.natAbs

/-- One coordinate field of `to_gro` (gromacs.py lines 40-44 and 64-75):
`np.round(x, P)` followed by `%{P+5}.{P}f`.  The rounded value is exactly
`roundScaled P x / 10^P`, and formatting a value exactly representable
with `P` decimals renders precisely those digits, so the composite is the
fixed-width rendering of `roundScaled P x`. -/
def coordField (P : ℕ) (x : ℚ) : List Char :=
  padLeftCh (P + 5) (fmtFInt P (roundScaled P x))

/-- One `%11.7f` box field of `to_gro` (gromacs.py lines 100-111). -/
def boxField (b : ℚ) : List Char := padLeftCh 11 (fmtFInt 7 (roundScaled 7 b))

/-- The `(box == np.diag(np.diagonal(box))).all()` rectangularity test
(gromacs.py line 101). -/
def boxIsRect (m : Vec3 × Vec3 × Vec3) : Bool :=
  m.1.2.1 == 0 && m.1.2.2 == 0 && m.2.1.1 == 0 && m.2.1.2.2 == 0 &&
  m.2.2.1 == 0 && m.2.2.2.1 == 0

/-- The box line of `to_gro` (gromacs.py lines 95-112); a `None` box is
replaced by `11 * np.eye(3)`. -/
def boxLineChars : Option (Vec3 × Vec3 × Vec3) → List Char
  | none => boxField 11 ++ boxField 11 ++ boxField 11
  | some m =>
    if boxIsRect m then
      boxField m.1.1 ++ boxField m.2.1.2.1 ++ boxField m.2.2.2.2
    else
      boxField m.1.1 ++ boxField m.2.1.2.1 ++ boxField m.2.2.2.2 ++
      boxField m.1.2.1 ++ boxField m.1.2.2 ++ boxField m.2.1.1 ++
      boxField m.2.1.2.2 ++ boxField m.2.2.1 ++ boxField m.2.2.2.1

/-- One particle record of `to_gro`: `"%5d%-5s%5s%5d"` then three
coordinate fields of width `P + 5`. -/
def groAtomLine (P : ℕ) (residue_idx : ℕ) (residue_name atom_name : List Char)
    (atom_index : ℕ) (pos : Vec3) : List Char :=
  padLeftCh 5 (natChars residue_idx) ++ padRightCh 5 residue_name ++
  padLeftCh 5 atom_name ++ padLeftCh 5 (natChars atom_index) ++
  coordField P pos.1 ++ coordField P pos.2.1 ++ coordField P pos.2.2

/-- `to_gro` (gromacs.py lines 24-112): the written file as a list of
lines (without trailing newlines).  Virtual-site records are written with
position `(0, 0, 0)`, atom name `"VS"`, residue index 1 and empty residue
name, and their indices are not reduced modulo 100000. -/
def toGroLines (sys : Interchange) (decimal : ℕ) : List (List Char) :=
  let vsmap := buildVirtualSiteMap sys
  let typemap := buildTypemap sys.atoms
  "Generated by OpenFF".toList ::
  natChars (sys.positions.length + vsmap.length) ::
  ((sys.atoms.enum.map (fun p =>
    groAtomLine decimal ((p.2.residue_index + 1) % 100000)
      (p.2.residue_name.toList.take 5) ((typemap.get? p.1).getD "").toList
      ((p.1 + 1) % 100000) ((sys.positions.get? p.1).getD (0, 0, 0)))) ++
  (vsmap.map (fun p =>
    groAtomLine decimal 1 [] "VS".toList p.2 (0, 0, 0))) ++
  [boxLineChars sys.box])

/-- Python `str.split()` on spaces (runs collapsed, no empty tokens). -/
def splitWsAux : List Char → List Char → List (List Char)
  | [], acc => if acc.isEmpty then [] else [acc.reverse]
  | c :: rest, acc =>
    if c == ' ' then
      if acc.isEmpty then splitWsAux rest []
      else acc.reverse :: splitWsAux rest []
    else splitWsAux rest (c :: acc)

/-- Python `str.split()`. -/
def splitWs (s : List Char) : List (List Char) := splitWsAux s []

/-- Python `str.strip()` (only spaces occur here). -/
def stripCh (s : List Char) : List Char :=
  ((s.dropWhile (· == ' ')).reverse.dropWhile (· == ' ')).reverse

/-- A nonempty all-digit string, as required by `int(...)`. -/
def parseNatDigits (t : List Char) : Option ℕ :=
  if !t.isEmpty && t.all Char.isDigit then some (charsToNat t) else none

/-- Python `float(...)` on the digit/point strings produced by the writer:
optional sign, digits, optional point and fraction digits; anything else
(in particular interior spaces) is a `ValueError`, i.e. `none`. -/
def pyFloatUnsigned (t : List Char) : Option ℚ :=
  let ip := t.takeWhile Char.isDigit
  let rest := t.drop ip.length
  if ip.isEmpty then none
  else match rest with
    | [] => some ((charsToNat ip : ℚ))
    | '.' :: frac =>
      if frac.all Char.isDigit then
        some ((charsToNat ip : ℚ) + (charsToNat frac : ℚ) / 10 ^ frac.length)
      else none
    | _ => none

/-- Python `float(...)`. -/
def pyFloat (s : List Char) : Option ℚ :=
  match stripCh s with
  | '-' :: rest => (pyFloatUnsigned rest).map Neg.neg
  | t => pyFloatUnsigned t

/-- Python `int(...)` on a string. -/
def pyIntOfStr (s : List Char) : Option ℤ :=
  match stripCh s with
  | '-' :: rest => (parseNatDigits rest).map (fun n => -(n : ℤ))
  | t => (parseNatDigits t).map (fun n => (n : ℤ))

/-- Python slicing `l[a:b]` (lenient past the end). -/
def slice (l : List Char) (a b : ℕ) : List Char := (l.drop a).take (b - a)

/-- The indices of `.` characters, from offset `i`. -/
def periodIdxsFrom : List Char → ℕ → List ℕ
  | [], _ => []
  | c :: rest, i =>
    if c == '.' then i :: periodIdxsFrom rest (i + 1)
    else periodIdxsFrom rest (i + 1)

/-- `[i for i, x in enumerate(atom_line) if x == "."]`
(gromacs.py line 131). -/
def periodIdxs (l : List Char) : List ℕ := periodIdxsFrom l 0

/-- `_infer_coord_precision` (gromacs.py lines 123-134): the spacing
between the last two decimal points of the third line, minus 5.  Fewer
than two periods is an `IndexError`. -/
def inferCoordPrecision (lines : List (List Char)) : Except GroError ℕ :=
  match (periodIdxs ((lines.get? 2).getD [])).reverse with
  | pLast :: pPrev :: _ => .ok (pLast - pPrev - 5)
  | _ => .error .indexError

/-- Parsing one particle record of `from_gro`
(gromacs.py lines 154-162). -/
def readCoordLine (w : ℕ) (line : List Char) : Except GroError Vec3 := do
  let _ ← match pyIntOfStr (slice line 0 5) with
          | some v => Except.ok v
          | none => Except.error GroError.valueError
  let _ ← match pyIntOfStr (slice line 15 20) with
          | some v => Except.ok v
          | none => Except.error GroError.valueError
  let x ← match pyFloat (slice line 20 (20 + w)) with
          | some v => Except.ok v
          | none => Except.error GroError.valueError
  let y ← match pyFloat (slice line (20 + w) (20 + 2 * w)) with
          | some v => Except.ok v
          | none => Except.error GroError.valueError
  let z ← match pyFloat (slice line (20 + 2 * w) (20 + 3 * w)) with
          | some v => Except.ok v
          | none => Except.error GroError.valueError
  Except.ok (x, y, z)

/-- The coordinate loop of `from_gro`, reading `count` records starting at
line `i` (a missing line reads as the empty string, as `readline` at end
of file). -/
def readCoordLines (w : ℕ) (lines : List (List Char)) :
    ℕ → ℕ → Except GroError (List Vec3)
  | _, 0 => Except.ok []
  | i, count + 1 => do
    let v ← readCoordLine w ((lines.get? i).getD [])
    let rest ← readCoordLines w lines (i + 1) count
    Except.ok (v :: rest)

/-- The result of `from_gro`: positions and box (nanometers). -/
structure GroRead where
  positions : List Vec3
  box : Vec3 × Vec3 × Vec3
deriving DecidableEq

/-- `from_gro` (gromacs.py lines 115-179).  A box line with other than
three tokens leaves `box` unbound (`NameError`). -/
def fromGroLines (lines : List (List Char)) : Except GroError GroRead := do
  let precision ← inferCoordPrecision lines
  let coordinate_width := precision + 5
  let n_atoms ← match pyIntOfStr ((lines.get? 1).getD []) with
                | some v => Except.ok v.toNat
                | none => Except.error GroError.valueError
  let positions ← readCoordLines coordinate_width lines 2 n_atoms
  let parsed_box ← (splitWs ((lines.get? (2 + n_atoms)).getD [])).mapM
    (fun t => match pyFloat t with
              | some v => Except.ok v
              | none => Except.error GroError.valueError)
  let box ← match parsed_box with
            | [a, b, c] =>
              Except.ok (((a, 0, 0) : Vec3), ((0, b, 0) : Vec3), ((0, 0, c) : Vec3))
            | _ => Except.error GroError.nameError
  Except.ok ⟨positions, box⟩

/-! ### Auxiliary predicates and concrete models used by the theorems -/

instance {ε α : Type} [DecidableEq ε] [DecidableEq α] : DecidableEq (Except ε α) :=
  fun a b =>
    match a, b with
    | .ok x, .ok y =>
      if h : x = y then isTrue (by rw [h]) else isFalse (by simp [h])
    | .error e, .error f =>
      if h : e = f then isTrue (by rw [h]) else isFalse (by simp [h])
    | .ok _, .error _ => isFalse (by simp)
    | .error _, .ok _ => isFalse (by simp)

/-- Whether an exporter outcome is an `UnsupportedExportError`. -/
def isUnsupportedExportErr : Option GroError → Bool
  | some (.unsupportedExport _) => true
  | _ => false

/-- The lines of a per-entry result, empty on a raise. -/
def okLines {R : Type} (x : Except GroError (List (TopLine R))) : List (TopLine R) :=
  match x with
  | .ok ls => ls
  | .error _ => []

/-- Recognize a `[ pairs ]` data line for the 1-based atom pair `(i, j)`. -/
def pairLineFor {R : Type} (i j : ℕ) : TopLine R → Bool
  | .pairLine ai aj _ _ _ => ai == i && aj == j
  | _ => false

/-- A water-like model with one `DivalentLonePair` virtual site. -/
def divKey : VirtualSiteKey := ⟨"DivalentLonePair", [0, 1, 2], "EP"⟩

/-- The VirtualSites handler of `divSys`. -/
def divVsh : Handler :=
  { slot_map := [(.vsite divKey, "v1")]
    potentials := [("v1", [("distance", 3),
      ("outOfPlaneAngle", 0), ("inPlaneAngle", 0)])] }

/-- Concrete divalent model: O(0)-H(1), O(0)-H(2), both bonds of length 1,
angle 2 rad, site distance 3, zero out-of-plane angle. -/
def divSys : Interchange :=
  { atoms := [⟨"O", 8, 16, 0, "HOH"⟩, ⟨"H", 1, 1, 0, "HOH"⟩, ⟨"H", 1, 1, 0, "HOH"⟩]
    bonds := [(0, 1), (0, 2)]
    handlers :=
      [("Bonds", { slot_map := [(.topo [0, 1], "b1"), (.topo [0, 2], "b1")]
                   potentials := [("b1", [("k", 1), ("length", 1)])] }),
       ("Angles", { slot_map := [(.topo [1, 0, 2], "a1")]
                    potentials := [("a1", [("k", 1), ("angle", 2)])] }),
       ("VirtualSites", divVsh)]
    positions := [(0, 0, 0), (1, 0, 0), (0, 1, 0)] }

/-- A model with one `MonovalentLonePair` virtual site whose parents are
declared out of order. -/
def monoKey : VirtualSiteKey := ⟨"MonovalentLonePair", [2, 0, 1], "EP"⟩

/-- Concrete monovalent model: distance 2 nm, in-plane angle 110 degrees,
zero out-of-plane angle. -/
def monoVsh : Handler :=
  { slot_map := [(.vsite monoKey, "v1")]
    potentials := [("v1", [("distance", 2),
      ("outOfPlaneAngle", 0), ("inPlaneAngle", 110)])] }

/-- The model carrying `monoVsh`. -/
def monoSys : Interchange :=
  { atoms := [⟨"O", 8, 16, 0, "MOL"⟩, ⟨"C", 6, 12, 0, "MOL"⟩, ⟨"H", 1, 1, 0, "MOL"⟩]
    bonds := [(0, 1), (1, 2)]
    handlers := [("VirtualSites", monoVsh)]
    positions := [(0, 0, 0), (1, 0, 0), (0, 1, 0)] }

/-- A model with a virtual site of an unsupported kind. -/
def badKey : VirtualSiteKey := ⟨"TrivalentLonePair", [0, 1], "EP"⟩

/-- The VirtualSites handler of `badSys`. -/
def badVsh : Handler :=
  { slot_map := [(.vsite badKey, "v1")]
    potentials := [("v1", [("distance", 1)])] }

/-- Concrete model carrying the unsupported virtual-site kind. -/
def badSys : Interchange :=
  { atoms := [⟨"N", 7, 14, 0, "MOL"⟩, ⟨"H", 1, 1, 0, "MOL"⟩]
    bonds := [(0, 1)]
    handlers := [("VirtualSites", badVsh)]
    positions := [(0, 0, 0), (1, 0, 0)] }

/-- The vdW handler of `bothSys`. -/
def bothVdw : Handler :=
  { slot_map := [(.topo [0], "Ar")]
    potentials := [("Ar", [("sigma", 1), ("epsilon", 1)])]
    mixing_rule := "lorentz-berthelot"
    scale_14 := 1 }

/-- An attribute-free handler. -/
def emptyHandler : Handler := { }

/-- The Electrostatics handler of `bothSys` and `buckSys`. -/
def elecHandler1 : Handler := { scale_14 := 1, charges := [([0], 0)] }

/-- A model exposing both a `vdW` and a `Buckingham-6` handler. -/
def bothSys : Interchange :=
  { atoms := [⟨"Ar", 18, 40, 0, "MOL"⟩]
    bonds := []
    handlers := [("vdW", bothVdw), ("Buckingham-6", emptyHandler),
                 ("Electrostatics", elecHandler1)]
    positions := [(0, 0, 0)] }

/-- The Buckingham-6 handler of `buckSys`. -/
def buckHandler : Handler :=
  { slot_map := [(.topo [0], "Ar")]
    potentials := [("Ar", [("A", 1), ("B", 2), ("C", 3)])]
    mixing_rule := "buckingham"
    scale_14 := 1 }

/-- A Buckingham-only model whose mixing rule is `"buckingham"`. -/
def buckSys : Interchange :=
  { atoms := [⟨"Ar", 18, 40, 0, "MOL"⟩]
    bonds := []
    handlers := [("Buckingham-6", buckHandler), ("Electrostatics", elecHandler1)]
    positions := [(0, 0, 0)] }

/-- The vdW handler of `pairSys`. -/
def pairVdw : Handler :=
  { slot_map := [(.topo [0], "C"), (.topo [1], "C"),
                 (.topo [2], "C"), (.topo [3], "C")]
    potentials := [("C", [("sigma", 1), ("epsilon", 1)])]
    mixing_rule := "lorentz-berthelot"
    scale_14 := 1 }

/-- A butane-like chain 0-1-2-3: its single 1-4 pair (0, 3) is reachable
through two torsion walks. -/
def pairSys : Interchange :=
  { atoms := [⟨"C", 6, 12, 0, "MOL"⟩, ⟨"C", 6, 12, 0, "MOL"⟩,
              ⟨"C", 6, 12, 0, "MOL"⟩, ⟨"C", 6, 12, 0, "MOL"⟩]
    bonds := [(0, 1), (1, 2), (2, 3)]
    handlers :=
      [("vdW", pairVdw),
       ("Electrostatics", { scale_14 := 1
                            charges := [([0], 0), ([1], 0), ([2], 0), ([3], 0)] })]
    positions := [(0, 0, 0), (1, 0, 0), (2, 0, 0), (3, 0, 0)] }

/-- The Bonds handler of `bondSys`. -/
def bondHandlerB : Handler :=
  { slot_map := [(.topo [0, 1], "b")]
    potentials := [("b", [("k", 5), ("length", 2)])] }

/-- A two-atom model whose single bond is declared in descending order. -/
def bondSys : Interchange :=
  { atoms := [⟨"O", 8, 16, 0, "MOL"⟩, ⟨"H", 1, 1, 0, "MOL"⟩]
    bonds := [(1, 0)]
    handlers := [("Bonds", bondHandlerB)]
    positions := [(0, 0, 0), (1, 0, 0)] }

/-- A two-atom model with integral positions for the coordinate-file
round trip. -/
def groSys : Interchange :=
  { atoms := [⟨"C", 6, 12, 0, "FOO"⟩, ⟨"O", 8, 16, 0, "FOO"⟩]
    bonds := [(0, 1)]
    handlers := []
    positions := [(1, 2, 3), (0, 0, 0)] }

/-- A one-atom model whose x coordinate does not fit the fixed-width
coordinate field at precision 3. -/
def wideSys : Interchange :=
  { atoms := [⟨"C", 6, 12, 0, "FOO"⟩]
    bonds := []
    handlers := []
    positions := [(123456, 0, 0)] }

/-- The particle record `to_gro` writes for atom `j`. -/
def atomRecord (sys : Interchange) (P j : ℕ) (a : Atom) : List Char :=
  groAtomLine P ((a.residue_index + 1) % 100000)
    (a.residue_name.toList.take 5)
    (((buildTypemap sys.atoms).get? j).getD "").toList ((j + 1) % 100000)
    ((sys.positions.get? j).getD (0, 0, 0))

/-- The position a written-then-parsed particle record yields: each
coordinate rounded to `P` decimals. -/
def roundVec (P : ℕ) (v : Vec3) : Vec3 :=
  (((roundScaled P v.1 : ℤ) : ℚ) / 10 ^ P,
   ((roundScaled P v.2.1 : ℤ) : ℚ) / 10 ^ P,
   ((roundScaled P v.2.2 : ℤ) : ℚ) / 10 ^ P)

/-- The particle records of the written coordinate file: one per atom,
then one per virtual site. -/
def groRecords (sys : Interchange) (P : ℕ) : List (List Char) :=
  (sys.atoms.enum.map (fun p => atomRecord sys P p.1 p.2)) ++
  ((buildVirtualSiteMap sys).map (fun p =>
    groAtomLine P 1 [] "VS".toList p.2 (0, 0, 0)))

/-- The positions recovered from re-reading the written file: each atom
position rounded to `P` decimals, then the origin for each virtual
site. -/
def groVals (sys : Interchange) (P : ℕ) : List Vec3 :=
  (sys.atoms.enum.map (fun p =>
    roundVec P ((sys.positions.get? p.1).getD (0, 0, 0)))) ++
  ((buildVirtualSiteMap sys).map (fun _ => roundVec P (0, 0, 0)))

/-! ### Theorems -/

/-- C1: For every DivalentLonePair virtual site, the translation requires
the two bonds from the (sorted-first) central atom to each side atom to
have equal length — unequal lengths are the UnsupportedGeometry fatal
error (realized as `NotImplementedError`); with equal lengths and zero
out-of-plane angle the emitted coefficient is
`a = -distance / (2·cos(angle/2)·bond_length)`, written into both
placement slots; with a nonzero out-of-plane angle the coefficients are
`a = -(distance·cos(oop)) / (2·bond_length·cos(angle/2))` (both slots)
and `c = -(distance·sin(oop)) / (bond_length²·sin(angle))`. -/
theorem divalent_lone_pair_translation
    (sys : Interchange) (vsh : Handler) (vsmap : List (SlotKey × ℕ))
    (key : VirtualSiteKey) (a1 a2 a3 vidx : ℕ) (l1 l2 θ d oop : ℚ)
    (hsort : pySorted key.atom_indices = [a1, a2, a3])
    (hidx : dictGet vsmap (.vsite key) = .ok vidx)
    (hl1 : categoryParam sys "Bonds" [a1, a2] "length" = .ok l1)
    (hl2 : categoryParam sys "Bonds" [a1, a3] "length" = .ok l2)
    (hangle : categoryParam sys "Angles" [a2, a1, a3] "angle" = .ok θ)
    (hdist : vsParam vsh key "distance" = .ok d)
    (hoop : vsParam vsh key "outOfPlaneAngle" = .ok oop) :
    (l1 ≠ l2 →
      divalentLine ℝ Real.cos Real.sin sys vsh vsmap key =
        .error (.notImplemented "")) ∧
    (l1 = l2 → oop = 0 →
      divalentLine ℝ Real.cos Real.sin sys vsh vsmap key =
        .ok (.vsite3Line vidx (a1 + 1) (a2 + 1) (a3 + 1) 1
          [-(d : ℝ) / (2 * Real.cos ((θ : ℝ) / 2) * (l1 : ℝ)),
           -(d : ℝ) / (2 * Real.cos ((θ : ℝ) / 2) * (l1 : ℝ))])) ∧
    (l1 = l2 → oop ≠ 0 →
      divalentLine ℝ Real.cos Real.sin sys vsh vsmap key =
        .ok (.vsite3Line vidx (a1 + 1) (a2 + 1) (a3 + 1) 4
          [-((d : ℝ) * Real.cos (oop : ℝ)) /
             (2 * (l1 : ℝ) * Real.cos ((θ : ℝ) / 2)),
           -((d : ℝ) * Real.cos (oop : ℝ)) /
             (2 * (l1 : ℝ) * Real.cos ((θ : ℝ) / 2)),
           -((d : ℝ) * Real.sin (oop : ℝ)) /
             ((l1 : ℝ) ^ 2 * Real.sin (θ : ℝ))])) := by
  refine ⟨fun hne => ?_, fun heq hz => ?_, fun heq hnz => ?_⟩
  · simp only [divalentLine, hsort, hidx, hl1, hl2, hangle, hdist, hoop,
      bind, Except.bind, hne, ne_eq, not_false_iff, if_true, throw, throwThe,
      MonadExceptOf.throw]
  · subst heq
    subst hz
    simp only [divalentLine, hsort, hidx, hl1, hl2, hangle, hdist, hoop,
      bind, Except.bind, ne_eq, not_true_eq_false, if_false, ite_true,
      pure, Except.pure, if_true, not_false_iff, Except.ok.injEq,
      TopLine.vsite3Line.injEq, List.cons.injEq, and_true, true_and]
    constructor <;> ring
  · subst heq
    simp only [divalentLine, hsort, hidx, hl1, hl2, hangle, hdist, hoop,
      bind, Except.bind, ne_eq, not_true_eq_false, if_false, hnz,
      pure, Except.pure, if_true, not_false_iff, Except.ok.injEq,
      TopLine.vsite3Line.injEq, List.cons.injEq, and_true, true_and]
    refine ⟨by ring, by ring, by ring⟩

theorem divalent_lone_pair_translation_witness :
    pySorted divKey.atom_indices = [0, 1, 2] ∧
    categoryParam divSys "Bonds" [0, 1] "length" = .ok 1 ∧
    categoryParam divSys "Bonds" [0, 2] "length" = .ok 1 ∧
    vsParam divVsh divKey "outOfPlaneAngle" = .ok 0 ∧
    divalentLine ℝ Real.cos Real.sin divSys divVsh
        (buildVirtualSiteMap divSys) divKey =
      .ok (.vsite3Line 4 1 2 3 1
        [-((3 : ℚ) : ℝ) / (2 * Real.cos (((2 : ℚ) : ℝ) / 2) * ((1 : ℚ) : ℝ)),
         -((3 : ℚ) : ℝ) / (2 * Real.cos (((2 : ℚ) : ℝ) / 2) * ((1 : ℚ) : ℝ))]) :=
  ⟨by rfl, by rfl, by rfl, by rfl,
    (divalent_lone_pair_translation divSys divVsh (buildVirtualSiteMap divSys)
      divKey 0 1 2 4 1 1 2 3 0 (by rfl) (by rfl) (by rfl) (by rfl) (by rfl)
      (by rfl) (by rfl)).2.1 rfl rfl⟩

/-- C2: For every MonovalentLonePair virtual site, translation is
supported only for an exactly zero out-of-plane angle — a nonzero angle is
the UnsupportedGeometry fatal error (realized as `NotImplementedError`);
when zero, the parent atoms are emitted sorted ascending by index and the
coefficients are `a = 180° - in_plane_angle` and `b = distance`. -/
theorem monovalent_lone_pair_translation
    (vsh : Handler) (vsmap : List (SlotKey × ℕ)) (key : VirtualSiteKey)
    (a1 a2 a3 vidx : ℕ) (oop d ipa : ℚ)
    (hsort : pySorted key.atom_indices = [a1, a2, a3])
    (hidx : dictGet vsmap (.vsite key) = .ok vidx)
    (hoop : vsParam vsh key "outOfPlaneAngle" = .ok oop)
    (hdist : vsParam vsh key "distance" = .ok d)
    (hipa : vsParam vsh key "inPlaneAngle" = .ok ipa) :
    (oop ≠ 0 →
      monovalentLine ℝ vsh vsmap key = .error (.notImplemented
        "Unclear how to do MonovalentLonePair virtual sites with GROMACS")) ∧
    (oop = 0 →
      monovalentLine ℝ vsh vsmap key =
        .ok (.vsite3Line vidx (a1 + 1) (a2 + 1) (a3 + 1) 3
          [((180 - ipa : ℚ) : ℝ), (d : ℝ)])) ∧
    (a1 ≤ a2 ∧ a2 ≤ a3) := by
  refine ⟨fun hnz => ?_, fun hz => ?_, ?_⟩
  · simp only [monovalentLine, hsort, hidx, hoop, hdist, hipa,
      bind, Except.bind, hnz, ne_eq, not_false_iff, if_true, throw, throwThe,
      MonadExceptOf.throw]
  · subst hz
    simp only [monovalentLine, hsort, hidx, hoop, hdist, hipa,
      bind, Except.bind, ne_eq, not_true_eq_false, if_false, pure, Except.pure]
  · have hs : List.Sorted (· ≤ ·) (pySorted key.atom_indices) :=
      List.sorted_insertionSort _ _
    rw [hsort] at hs
    simp only [List.sorted_cons, List.mem_cons, List.mem_singleton,
      List.not_mem_nil] at hs
    exact ⟨hs.1 a2 (Or.inl rfl), hs.2.1 a3 (Or.inl rfl)⟩

theorem monovalent_lone_pair_translation_witness :
    pySorted monoKey.atom_indices = [0, 1, 2] ∧
    vsParam monoVsh monoKey "outOfPlaneAngle" = .ok 0 ∧
    vsParam monoVsh monoKey "inPlaneAngle" = .ok 110 ∧
    monovalentLine ℝ monoVsh (buildVirtualSiteMap monoSys) monoKey =
      .ok (.vsite3Line 4 1 2 3 3 [((180 - 110 : ℚ) : ℝ), ((2 : ℚ) : ℝ)]) :=
  ⟨by rfl, by rfl, by rfl,
    (monovalent_lone_pair_translation monoVsh (buildVirtualSiteMap monoSys)
      monoKey 0 1 2 4 0 2 110 (by rfl) (by rfl) (by rfl) (by rfl)
      (by rfl)).2.1 rfl⟩

/-- C9 (counterexample to the claim as stated): on a model with a
virtual-site kind outside the supported three, the export aborts with the
`NotImplementedError` raise of `_write_virtual_sites`, not with an
`UnsupportedExportError` as the claim names it. -/
theorem unsupported_kind_not_unsupported_export :
    (writeVirtualSites ℝ Real.cos Real.sin badSys
        (buildVirtualSiteMap badSys)).err =
      some (.notImplemented "Only BondCharge virtual sites are implemented") ∧
    isUnsupportedExportErr (writeVirtualSites ℝ Real.cos Real.sin badSys
        (buildVirtualSiteMap badSys)).err = false :=
  ⟨by rfl, by rfl⟩

/-- C9 (amended): for every virtual site whose kind is not one of
BondCharge, MonovalentLonePair or DivalentLonePair, `_write_virtual_sites`
fails with a fatal `NotImplementedError` (the spec's UnsupportedGeometry
taxonomy entry, not UnsupportedExport) before any translation of any
virtual site is attempted: no line is written. -/
theorem write_virtual_sites_unsupported_kind
    (R : Type) [LinearOrderedField R] (rcos rsin : R → R)
    (sys : Interchange) (vsmap : List (SlotKey × ℕ)) (vsh : Handler)
    (hh : getHandler sys "VirtualSites" = some vsh)
    (hbad : vsh.slot_map.all (fun kp => ["BondCharge", "MonovalentLonePair",
        "DivalentLonePair"].contains kp.1.vsiteType) = false) :
    writeVirtualSites R rcos rsin sys vsmap =
      ⟨[], some (.notImplemented
        "Only BondCharge virtual sites are implemented")⟩ := by
  simp only [writeVirtualSites, hh, hbad, raiseE, Bool.false_eq_true,
    not_false_iff, if_true]

theorem write_virtual_sites_unsupported_kind_witness :
    getHandler badSys "VirtualSites" = some badVsh ∧
    badVsh.slot_map.all (fun kp => ["BondCharge", "MonovalentLonePair",
        "DivalentLonePair"].contains kp.1.vsiteType) = false ∧
    writeVirtualSites ℝ Real.cos Real.sin badSys (buildVirtualSiteMap badSys) =
      ⟨[], some (.notImplemented
        "Only BondCharge virtual sites are implemented")⟩ :=
  ⟨by rfl, by rfl,
    write_virtual_sites_unsupported_kind ℝ Real.cos Real.sin badSys
      (buildVirtualSiteMap badSys) badVsh (by rfl) (by rfl)⟩

/-- C3 (counterexample to the claim as stated): on a model exposing both
a vdW and a Buckingham-6 category, `to_top` does raise
`UnsupportedExportError`, but only after the file has been opened for
writing and four lines (including the whole `[ defaults ]` section) have
been produced — not "before any output is produced". -/
theorem both_categories_partial_output :
    (toTop ℝ Real.cos Real.sin Real.sqrt bothSys).err =
      some (.unsupportedExport
        "Cannot mix 12-6 and Buckingham potentials in GROMACS") ∧
    (toTop ℝ Real.cos Real.sin Real.sqrt bothSys).lines.length = 4 :=
  ⟨by rfl, by rfl⟩

/-- C3 (amended): a Model exposing both a vdW and a Buckingham-6 category
makes `to_top` raise `UnsupportedExportError` from `_write_atomtypes`; the
failure is fatal (nothing after the atomtypes check is emitted), but the
target file has already been opened for writing (truncating any
pre-existing file) and the comment line and `[ defaults ]` section have
already been written when the error is raised. -/
theorem to_top_both_categories
    (R : Type) [LinearOrderedField R] (rcos rsin rsqrt : R → R)
    (sys : Interchange) (hv hb he : Handler)
    (hvdw : getHandler sys "vdW" = some hv)
    (hbuck : getHandler sys "Buckingham-6" = some hb)
    (hmix : hv.mixing_rule = "lorentz-berthelot")
    (helec : getHandler sys "Electrostatics" = some he) :
    toTop R rcos rsin rsqrt sys =
      ⟨[.comment "; Generated by OpenFF Interchange",
        .sectionHeader "defaults",
        .comment "; nbfunc\tcomb-rule\tgen-pairs\tfudgeLJ\tfudgeQQ",
        .defaultsLine 1 2 "no" hv.scale_14 he.scale_14],
       some (.unsupportedExport
         "Cannot mix 12-6 and Buckingham potentials in GROMACS")⟩ := by
  simp only [toTop, writeTopDefaults, defaultsRest, writeAtomtypes,
    hvdw, hbuck, hmix, helec, put, raiseE, emitOf, EmitResult.seq,
    bind, Except.bind, beq_self_eq_true, if_true, List.cons_append,
    List.nil_append, List.append_nil]

theorem to_top_both_categories_witness :
    getHandler bothSys "vdW" = some bothVdw ∧
    getHandler bothSys "Buckingham-6" = some emptyHandler ∧
    bothVdw.mixing_rule = "lorentz-berthelot" ∧
    toTop ℝ Real.cos Real.sin Real.sqrt bothSys =
      ⟨[.comment "; Generated by OpenFF Interchange",
        .sectionHeader "defaults",
        .comment "; nbfunc\tcomb-rule\tgen-pairs\tfudgeLJ\tfudgeQQ",
        .defaultsLine 1 2 "no" bothVdw.scale_14 elecHandler1.scale_14],
       some (.unsupportedExport
         "Cannot mix 12-6 and Buckingham potentials in GROMACS")⟩ :=
  ⟨by rfl, by rfl, by rfl,
    to_top_both_categories ℝ Real.cos Real.sin Real.sqrt bothSys
      bothVdw emptyHandler elecHandler1 (by rfl) (by rfl) (by rfl) (by rfl)⟩

/-- C5 (counterexample to the claim as stated): a Buckingham-6-only model
whose mixing rule is `"buckingham"` — neither `lorentz-berthelot` nor
`geometric` — exports without any fatal error: `_write_top_defaults`
accepts it (combination-rule code 2) instead of raising. -/
theorem buckingham_mixing_rule_not_fatal :
    buckHandler.mixing_rule = "buckingham" ∧
    (toTop ℝ Real.cos Real.sin Real.sqrt buckSys).err = none :=
  ⟨by rfl, by rfl⟩

/-- C5 (amended): for every emitted 1-4 pair, under `lorentz-berthelot`
the combined sigma is the arithmetic mean and the combined epsilon the
geometric mean; under `geometric` both are geometric means; the emitted
epsilon is scaled by the handler's 1-4 scale factor; any other
mixing-rule value aborts the pair write, and — for a vdW model — already
aborts the export in `_write_top_defaults` with `UnsupportedExportError`
(but a Buckingham-6-only model with mixing rule `"buckingham"` is
accepted there, see the counterexample). -/
theorem pair_mixing_rules
    (sys : Interchange) (mixing_rule : String) (scale_lj : ℚ) (pair : ℕ × ℕ)
    (params1 params2 : Potential) (sig1 eps1 sig2 eps2 : ℚ) (h : Handler)
    (hp1 : getLJParameters sys (pySortedPair pair).1 = .ok params1)
    (hs1 : dictGet params1 "sigma" = .ok sig1)
    (he1 : dictGet params1 "epsilon" = .ok eps1)
    (hp2 : getLJParameters sys (pySortedPair pair).2 = .ok params2)
    (hs2 : dictGet params2 "sigma" = .ok sig2)
    (he2 : dictGet params2 "epsilon" = .ok eps2) :
    (mixing_rule = "lorentz-berthelot" →
      pairEntry ℝ Real.sqrt sys mixing_rule scale_lj pair =
        .ok [.pairLine ((pySortedPair pair).1 + 1) ((pySortedPair pair).2 + 1)
          1 (((sig1 : ℝ) + (sig2 : ℝ)) / 2)
          (Real.sqrt ((eps1 : ℝ) * (eps2 : ℝ)) * (scale_lj : ℝ))]) ∧
    (mixing_rule = "geometric" →
      pairEntry ℝ Real.sqrt sys mixing_rule scale_lj pair =
        .ok [.pairLine ((pySortedPair pair).1 + 1) ((pySortedPair pair).2 + 1)
          1 (Real.sqrt ((sig1 : ℝ) * (sig2 : ℝ)))
          (Real.sqrt ((eps1 : ℝ) * (eps2 : ℝ)) * (scale_lj : ℝ))]) ∧
    (mixing_rule ≠ "lorentz-berthelot" → mixing_rule ≠ "geometric" →
      pairEntry ℝ Real.sqrt sys mixing_rule scale_lj pair =
        .error .nameError) ∧
    (getHandler sys "vdW" = some h → h.mixing_rule ≠ "lorentz-berthelot" →
      h.mixing_rule ≠ "geometric" →
      (writeTopDefaults ℝ sys).err = some (.unsupportedExport
        ("Mixing rule `" ++ h.mixing_rule ++
         " not compatible with GROMACS and/or not supported by current " ++
         "exporter. Supported values are `lorentez-berthelot` and `geometric`."))) := by
  refine ⟨fun hlb => ?_, fun hgeo => ?_, fun hn1 hn2 => ?_, fun hv hn1 hn2 => ?_⟩
  · subst hlb
    simp only [pairEntry, hp1, hs1, he1, hp2, hs2, he2, bind, Except.bind,
      beq_self_eq_true, if_true, Except.ok.injEq, TopLine.pairLine.injEq,
      List.cons.injEq, and_true, true_and]
    norm_num
    ring
  · subst hgeo
    have hne : (("geometric" : String) == "lorentz-berthelot") = false := by rfl
    simp only [pairEntry, hp1, hs1, he1, hp2, hs2, he2, bind, Except.bind,
      hne, Bool.false_eq_true, if_false, beq_self_eq_true, if_true]
  · have e1 : (mixing_rule == "lorentz-berthelot") = false :=
      beq_eq_false_iff_ne.mpr hn1
    have e2 : (mixing_rule == "geometric") = false :=
      beq_eq_false_iff_ne.mpr hn2
    simp only [pairEntry, hp1, hs1, he1, hp2, hs2, he2, bind, Except.bind,
      e1, e2, Bool.false_eq_true, if_false]
  · have e1 : (h.mixing_rule == "lorentz-berthelot") = false :=
      beq_eq_false_iff_ne.mpr hn1
    have e2 : (h.mixing_rule == "geometric") = false :=
      beq_eq_false_iff_ne.mpr hn2
    have e3 : (h.mixing_rule == "buckingham" && ("vdW" : String) == "Buckingham-6")
        = false := by
      simp [Bool.and_eq_false_iff]
    simp only [writeTopDefaults, defaultsRest, hv, put, emitOf,
      EmitResult.seq, bind, Except.bind, e1, e2, e3, Bool.false_eq_true,
      if_false]

theorem pair_mixing_rules_witness :
    getLJParameters pairSys (pySortedPair (0, 3)).1 = .ok [("sigma", 1), ("epsilon", 1)] ∧
    getLJParameters pairSys (pySortedPair (0, 3)).2 = .ok [("sigma", 1), ("epsilon", 1)] ∧
    pairEntry ℝ Real.sqrt pairSys "lorentz-berthelot" 1 (0, 3) =
      .ok [.pairLine ((pySortedPair (0, 3)).1 + 1) ((pySortedPair (0, 3)).2 + 1)
        1 ((((1 : ℚ) : ℝ) + ((1 : ℚ) : ℝ)) / 2)
        (Real.sqrt (((1 : ℚ) : ℝ) * ((1 : ℚ) : ℝ)) * ((1 : ℚ) : ℝ))] :=
  ⟨by rfl, by rfl,
    (pair_mixing_rules pairSys "lorentz-berthelot" 1 (0, 3)
      [("sigma", 1), ("epsilon", 1)] [("sigma", 1), ("epsilon", 1)]
      1 1 1 1 pairVdw (by rfl) (by rfl) (by rfl) (by rfl) (by rfl)
      (by rfl)).1 rfl⟩

/-- The bond-resolution fold only answers with the value of a slot-map
entry whose Site Identity matches the query forward or reversed. -/
theorem resolveBondKey_fold_mem :
    ∀ (sm : List (SlotKey × PotentialKey)) (indices : List ℕ)
      (acc : Option PotentialKey) (pk : PotentialKey),
    sm.foldl (fun acc kp =>
      if kp.1.atom_indices == indices then some kp.2
      else if kp.1.atom_indices == indices.reverse then some kp.2
      else acc) acc = some pk →
    acc = some pk ∨ ∃ kp ∈ sm,
      (kp.1.atom_indices = indices ∨ kp.1.atom_indices = indices.reverse) ∧
      kp.2 = pk := by
  intro sm
  induction sm with
  | nil => intro indices acc pk h; exact Or.inl h
  | cons kp rest ih =>
    intro indices acc pk h
    simp only [List.foldl_cons] at h
    rcases ih indices _ pk h with hacc | ⟨kp', hmem, hk⟩
    · by_cases h1 : kp.1.atom_indices == indices
      · refine Or.inr ⟨kp, List.mem_cons_self _ _, Or.inl (by simpa using h1), ?_⟩
        rw [if_pos h1] at hacc
        exact (Option.some.injEq _ _ ▸ hacc).symm ▸ rfl
      · by_cases h2 : kp.1.atom_indices == indices.reverse
        · refine Or.inr ⟨kp, List.mem_cons_self _ _, Or.inr (by simpa using h2), ?_⟩
          rw [if_neg h1, if_pos h2] at hacc
          exact (Option.some.injEq _ _ ▸ hacc).symm ▸ rfl
        · rw [if_neg h1, if_neg h2] at hacc
          exact Or.inl hacc
    · exact Or.inr ⟨kp', List.mem_cons_of_mem _ hmem, hk⟩

/-- C6: For every bond, the emitted atom-index pair in `[ bonds ]` is
ascending regardless of the declared direction; the parameter set is
resolved by matching the bond's Site Identity forward or reversed against
the Bonds slot map; zero matches is a fatal error (the spec's
UnresolvedInteraction, realized as the `NameError` on the unbound
`pot_key`), never a silent skip. -/
theorem bond_emission (R : Type) [LinearOrderedField R]
    (bond_handler : Handler) (a b : ℕ) (pk : PotentialKey)
    (params : Potential) (kq lenq : ℚ) :
    (resolveBondKey bond_handler.slot_map [min a b, max a b] = none →
      bondEntry R bond_handler (a, b) = .error .nameError) ∧
    (resolveBondKey bond_handler.slot_map [min a b, max a b] = some pk →
      ∃ kp ∈ bond_handler.slot_map,
        (kp.1.atom_indices = [min a b, max a b] ∨
         kp.1.atom_indices = [max a b, min a b]) ∧ kp.2 = pk) ∧
    (resolveBondKey bond_handler.slot_map [min a b, max a b] = some pk →
      dictGet bond_handler.potentials pk = .ok params →
      dictGet params "k" = .ok kq → dictGet params "length" = .ok lenq →
      bondEntry R bond_handler (a, b) =
        .ok [.bondLine (min a b + 1) (max a b + 1) 1 lenq kq] ∧
      min a b + 1 ≤ max a b + 1) := by
  refine ⟨fun hnone => ?_, fun hsome => ?_, fun hsome hpot hk hlen => ⟨?_, ?_⟩⟩
  · simp only [bondEntry, pySortedPair, hnone, bind, Except.bind]
  · have := resolveBondKey_fold_mem bond_handler.slot_map [min a b, max a b]
      none pk hsome
    rcases this with hacc | ⟨kp, hmem, hor, hk⟩
    · exact absurd hacc (by simp)
    · refine ⟨kp, hmem, ?_, hk⟩
      simpa using hor
  · simp only [bondEntry, pySortedPair, hsome, hpot, hk, hlen, bind,
      Except.bind]
  · have : min a b ≤ max a b := min_le_max
    omega

theorem bond_emission_witness :
    resolveBondKey bondHandlerB.slot_map [min 1 0, max 1 0] = some "b" ∧
    (bondEntry ℝ bondHandlerB (1, 0) =
        .ok [.bondLine (min 1 0 + 1) (max 1 0 + 1) 1 2 5] ∧
      min 1 0 + 1 ≤ max 1 0 + 1) ∧
    (∃ kp ∈ bondHandlerB.slot_map,
      (kp.1.atom_indices = [min 1 0, max 1 0] ∨
       kp.1.atom_indices = [max 1 0, min 1 0]) ∧ kp.2 = "b") :=
  ⟨by rfl,
    (bond_emission ℝ bondHandlerB 1 0 "b" [("k", 5), ("length", 2)] 5 2).2.2
      (by rfl) (by rfl) (by rfl) (by rfl),
    (bond_emission ℝ bondHandlerB 1 0 "b" [("k", 5), ("length", 2)] 5 2).2.1
      (by rfl)⟩

/-- The assigned indices of an enumerated key list form a contiguous
range. -/
theorem enumFrom_vsmap_snd :
    ∀ (keys : List SlotKey) (base s : ℕ),
    ((List.enumFrom s keys).map (fun p => (p.2, base + p.1))).map Prod.snd
      = List.range' (base + s) keys.length := by
  intro keys
  induction keys with
  | nil => intro base s; rfl
  | cons k rest ih =>
    intro base s
    simp only [List.enumFrom_cons, List.map_cons, List.length_cons,
      List.range'_succ, List.cons.injEq, true_and]
    rw [ih base (s + 1)]
    ring_nf

/-- The `i`-th enumerated key is assigned `base + s + i`. -/
theorem enumFrom_vsmap_get :
    ∀ (keys : List SlotKey) (base s i : ℕ) (k : SlotKey),
    keys.get? i = some k →
    ((List.enumFrom s keys).map (fun p => (p.2, base + p.1))).get? i =
      some (k, base + (s + i)) := by
  intro keys
  induction keys with
  | nil => intro base s i k h; simp at h
  | cons k0 rest ih =>
    intro base s i k h
    cases i with
    | zero =>
      simp only [List.get?] at h
      cases h
      simp [List.enumFrom_cons]
    | succ j =>
      simp only [List.get?] at h
      have := ih base (s + 1) j k h
      simpa [List.enumFrom_cons, Nat.add_assoc, Nat.add_comm 1 j] using this

/-- C8: the virtual-site index map assigns `N + 1 + position` in the
iteration order of the VirtualSites slot map (N the real-atom count), so
virtual-site indices are the contiguous range `N+1, ..., N+len`, pairwise
distinct and disjoint from the 1-based real-atom indices `1..N`; each
real atom's `[ atoms ]` record carries `position + 1`. -/
theorem index_assignment (sys : Interchange) (h : Handler)
    (hh : getHandler sys "VirtualSites" = some h) :
    ((buildVirtualSiteMap sys).map Prod.snd =
      List.range' (sys.atoms.length + 1) h.slot_map.length) ∧
    (∀ i k, (h.slot_map.map Prod.fst).get? i = some k →
      (buildVirtualSiteMap sys).get? i =
        some (k, sys.atoms.length + 1 + i)) ∧
    ((buildVirtualSiteMap sys).map Prod.snd).Nodup ∧
    (∀ v ∈ (buildVirtualSiteMap sys).map Prod.snd,
      sys.atoms.length + 1 ≤ v ∧
        v < sys.atoms.length + 1 + h.slot_map.length) ∧
    (∀ (R : Type) (he : Handler) (typemap : List String) (i : ℕ) (a : Atom)
      (ls : List (TopLine R)),
      atomEntry R he typemap (i, a) = .ok ls →
      ∃ t c, ls = [.atomLine (i + 1) t (a.residue_index + 1)
        a.residue_name t (i + 1) c a.element_mass]) := by
  have hmap : (buildVirtualSiteMap sys).map Prod.snd =
      List.range' (sys.atoms.length + 1) h.slot_map.length := by
    rw [buildVirtualSiteMap, hh, List.enum]
    have := enumFrom_vsmap_snd (h.slot_map.map Prod.fst)
      (sys.atoms.length + 1) 0
    simpa using this
  refine ⟨hmap, fun i k hk => ?_, ?_, fun v hv => ?_, ?_⟩
  · rw [buildVirtualSiteMap, hh, List.enum]
    simpa using enumFrom_vsmap_get (h.slot_map.map Prod.fst)
      (sys.atoms.length + 1) 0 i k hk
  · rw [hmap]; exact List.nodup_range' _ _
  · rw [hmap] at hv
    have := List.mem_range'_1.mp hv
    omega
  · intro R he typemap i a ls hok
    simp only [atomEntry, bind, Except.bind] at hok
    cases hty : typemap.get? i with
    | none => rw [hty] at hok; exact absurd hok (by simp)
    | some t =>
      rw [hty] at hok
      cases hch : dictGet he.charges [i] with
      | error e => rw [hch] at hok; exact absurd hok (by simp)
      | ok c =>
        rw [hch] at hok
        simp only [pure, Except.pure, Except.ok.injEq] at hok
        exact ⟨t, c, hok.symm⟩

theorem index_assignment_witness :
    getHandler divSys "VirtualSites" = some divVsh ∧
    (buildVirtualSiteMap divSys).map Prod.snd =
      List.range' (divSys.atoms.length + 1) divVsh.slot_map.length ∧
    (buildVirtualSiteMap divSys).get? 0 =
      some (.vsite divKey, divSys.atoms.length + 1 + 0) :=
  ⟨by rfl, (index_assignment divSys divVsh (by rfl)).1,
    (index_assignment divSys divVsh (by rfl)).2.1 0 (.vsite divKey) (by rfl)⟩

/-- A per-entry loop that finished without raising wrote the
concatenation of the per-entry lines, and every entry succeeded. -/
theorem emitEach_err_none {R α : Type}
    (f : α → Except GroError (List (TopLine R))) :
    ∀ xs : List α, (emitEach xs f).err = none →
      (emitEach xs f).lines = xs.flatMap (fun x => okLines (f x)) ∧
      ∀ x ∈ xs, ∃ ls, f x = .ok ls := by
  intro xs
  induction xs with
  | nil => intro _; exact ⟨rfl, by simp⟩
  | cons x rest ih =>
    intro herr
    cases hfx : f x with
    | error e =>
      rw [emitEach, hfx] at herr
      exact absurd herr (by simp)
    | ok ls =>
      rw [emitEach, hfx] at herr ⊢
      simp only [put, EmitResult.seq] at herr ⊢
      have hrest := ih herr
      refine ⟨?_, fun y hy => ?_⟩
      · rw [List.flatMap_cons]
        have hok : okLines (f x) = ls := by rw [hfx]; rfl
        rw [hok, hrest.1]
      · rcases List.mem_cons.mp hy with rfl | hmem
        · exact ⟨ls, hfx⟩
        · exact hrest.2 y hmem

/-- A successful `pairEntry` writes exactly one `[ pairs ]` line, keyed by
the sorted pair. -/
theorem pairEntry_ok_shape (R : Type) [LinearOrderedField R] (rsqrt : R → R)
    (sys : Interchange) (mr : String) (sc : ℚ) (x : ℕ × ℕ)
    (ls : List (TopLine R)) :
    pairEntry R rsqrt sys mr sc x = .ok ls →
    ∃ s e : R, ls = [.pairLine ((pySortedPair x).1 + 1)
      ((pySortedPair x).2 + 1) 1 s e] := by
  intro hok
  simp only [pairEntry, bind, Except.bind] at hok
  cases h1 : getLJParameters sys (pySortedPair x).1 with
  | error e => simp only [h1] at hok; exact absurd hok (by simp)
  | ok p1 =>
  simp only [h1] at hok
  cases h2 : dictGet p1 "sigma" with
  | error e => simp only [h2] at hok; exact absurd hok (by simp)
  | ok s1 =>
  simp only [h2] at hok
  cases h3 : dictGet p1 "epsilon" with
  | error e => simp only [h3] at hok; exact absurd hok (by simp)
  | ok e1 =>
  simp only [h3] at hok
  cases h4 : getLJParameters sys (pySortedPair x).2 with
  | error e => simp only [h4] at hok; exact absurd hok (by simp)
  | ok p2 =>
  simp only [h4] at hok
  cases h5 : dictGet p2 "sigma" with
  | error e => simp only [h5] at hok; exact absurd hok (by simp)
  | ok s2 =>
  simp only [h5] at hok
  cases h6 : dictGet p2 "epsilon" with
  | error e => simp only [h6] at hok; exact absurd hok (by simp)
  | ok e2 =>
  simp only [h6] at hok
  by_cases hb1 : (mr == "lorentz-berthelot") = true
  · simp only [hb1, if_true, Except.ok.injEq] at hok
    exact ⟨_, _, hok.symm⟩
  · simp only [hb1, Bool.false_eq_true, if_false] at hok
    by_cases hb2 : (mr == "geometric") = true
    · simp only [hb2, if_true, Except.ok.injEq] at hok
      exact ⟨_, _, hok.symm⟩
    · simp only [hb2, Bool.false_eq_true, if_false] at hok
      exact absurd hok (by simp)

/-- Torsion-walk endpoints are distinct atoms. -/
theorem torsionWalks_ends_ne (n : ℕ) (bonds : List (ℕ × ℕ)) :
    ∀ t ∈ torsionWalks n bonds, t.1 ≠ t.2.2.2 := by
  intro t ht
  simp only [torsionWalks, List.mem_flatMap, List.mem_filterMap,
    List.mem_range] at ht
  obtain ⟨w, -, x, -, y, -, z, -, hz⟩ := ht
  by_cases hcond : (adjacentB bonds w x && adjacentB bonds x y &&
      adjacentB bonds y z && !(w == x) && !(w == y) && !(w == z) &&
      !(x == y) && !(x == z) && !(y == z)) = true
  · rw [if_pos hcond] at hz
    cases hz
    simp only [Bool.and_eq_true, Bool.not_eq_true', beq_eq_false_iff_ne,
      ne_eq] at hcond
    exact hcond.1.1.1.2
  · rw [if_neg hcond] at hz
    exact absurd hz (by simp)

/-- Every derived 1-4 pair is strictly ascending. -/
theorem iteratePairs_lt (n : ℕ) (bonds : List (ℕ × ℕ)) :
    ∀ p ∈ iteratePairs n bonds, p.1 < p.2 := by
  intro p hp
  simp only [iteratePairs, List.mem_map] at hp
  obtain ⟨t, ht, rfl⟩ := hp
  have hne := torsionWalks_ends_ne n bonds t ht
  exact min_lt_max.mpr hne

/-- Counting matches across a concatenated per-entry output, when each
entry contributes an indicator. -/
theorem countP_flatMap_indicator {α β : Type} [DecidableEq α] (q : β → Bool)
    (g : α → List β) (p : α) :
    ∀ xs : List α, (∀ x ∈ xs, ((g x).countP q) = if x = p then 1 else 0) →
      ((xs.flatMap g).countP q) = xs.countP (fun x => decide (x = p)) := by
  intro xs
  induction xs with
  | nil => intro _; simp
  | cons x rest ih =>
    intro hind
    rw [List.flatMap_cons, List.countP_append, List.countP_cons,
      hind x (List.mem_cons_self x rest),
      ih (fun y hy => hind y (List.mem_cons_of_mem x hy))]
    by_cases hxp : x = p
    · simp [hxp, Nat.add_comm]
    · simp [hxp]

/-- In a duplicate-free list, a member is counted exactly once. -/
theorem countP_eq_one_of_nodup_mem {α : Type} [DecidableEq α] {p : α} :
    ∀ {l : List α}, l.Nodup → p ∈ l →
      l.countP (fun x => decide (x = p)) = 1 := by
  intro l
  induction l with
  | nil => intro _ hm; simp at hm
  | cons a rest ih =>
    intro hn hm
    rw [List.countP_cons]
    rcases List.mem_cons.mp hm with rfl | hmem
    · have hnot : p ∉ rest := (List.nodup_cons.mp hn).1
      have : rest.countP (fun x => decide (x = p)) = 0 :=
        List.countP_eq_zero.mpr (fun y hy => by
          simp only [decide_eq_true_eq]
          intro h
          exact hnot (h ▸ hy))
      simp [this]
    · have ha : a ≠ p := by
        intro h
        exact (List.nodup_cons.mp hn).1 (h ▸ hmem)
      rw [ih (List.nodup_cons.mp hn).2 hmem]
      simp [ha]

/-- C4: for every pair of atoms that are the endpoints of a torsion walk,
a successful `[ pairs ]` write contains exactly one line for that
unordered pair (the set-based dedup collapses multiple torsion paths),
with its two 1-based atom indices ascending. -/
theorem pairs_deduplicated (sys : Interchange) (h : Handler) (p : ℕ × ℕ)
    (hv : getHandler sys "vdW" = some h)
    (herr : (writePairs ℝ Real.sqrt sys).err = none)
    (hp : p ∈ iteratePairs sys.atoms.length sys.bonds) :
    ((writePairs ℝ Real.sqrt sys).lines.countP
      (pairLineFor (p.1 + 1) (p.2 + 1))) = 1 ∧
    p.1 + 1 < p.2 + 1 := by
  have hlt := iteratePairs_lt sys.atoms.length sys.bonds p hp
  constructor
  · have hw : writePairs ℝ Real.sqrt sys =
        emitEach ((iteratePairs sys.atoms.length sys.bonds).dedup)
          (pairEntry ℝ Real.sqrt sys h.mixing_rule h.scale_14) := by
      rw [writePairs, hv]
    rw [hw] at herr ⊢
    obtain ⟨hlines, hok⟩ := emitEach_err_none _ _ herr
    rw [hlines]
    have hcount := countP_flatMap_indicator
      (pairLineFor (p.1 + 1) (p.2 + 1))
      (fun x => okLines (pairEntry ℝ Real.sqrt sys h.mixing_rule
        h.scale_14 x)) p
      ((iteratePairs sys.atoms.length sys.bonds).dedup)
      (fun x hx => ?_)
    · rw [hcount]
      exact countP_eq_one_of_nodup_mem (List.nodup_dedup _)
        (List.mem_dedup.mpr hp)
    · obtain ⟨ls, hls⟩ := hok x hx
      obtain ⟨s, e, hshape⟩ := pairEntry_ok_shape ℝ Real.sqrt sys
        h.mixing_rule h.scale_14 x ls hls
      have hxlt := iteratePairs_lt sys.atoms.length sys.bonds x
        (List.mem_dedup.mp hx)
      have hxs : pySortedPair x = x := by
        rcases x with ⟨x1, x2⟩
        simp only [pySortedPair]
        exact Prod.ext (min_eq_left (le_of_lt hxlt))
          (max_eq_right (le_of_lt hxlt))
      have hol : okLines (pairEntry ℝ Real.sqrt sys h.mixing_rule
          h.scale_14 x) = ls := by rw [hls]; rfl
      show (okLines (pairEntry ℝ Real.sqrt sys h.mixing_rule
          h.scale_14 x)).countP (pairLineFor (p.1 + 1) (p.2 + 1)) =
        if x = p then 1 else 0
      rw [hol, hshape, hxs]
      by_cases hxp : x = p
      · subst hxp
        simp [pairLineFor]
      · have hne : ¬ (x.1 + 1 = p.1 + 1 ∧ x.2 + 1 = p.2 + 1) := by
          intro hcontra
          exact hxp (Prod.ext (by omega) (by omega))
        simp only [List.countP_cons, List.countP_nil, pairLineFor,
          Bool.and_eq_true, beq_iff_eq, if_neg hxp, Nat.zero_add]
        rw [if_neg]
        intro hcontra
        exact hne ⟨hcontra.1, hcontra.2⟩
  · omega

theorem pairs_deduplicated_witness :
    getHandler pairSys "vdW" = some pairVdw ∧
    (writePairs ℝ Real.sqrt pairSys).err = none ∧
    (0, 3) ∈ iteratePairs pairSys.atoms.length pairSys.bonds ∧
    ((writePairs ℝ Real.sqrt pairSys).lines.countP
      (pairLineFor ((0, 3).1 + 1) ((0, 3).2 + 1))) = 1 :=
  ⟨by rfl, by rfl, by decide,
    (pairs_deduplicated pairSys pairVdw (0, 3) (by rfl) (by rfl)
      (by decide)).1⟩

/-! #### Digit-string lemmas for the coordinate-file round trip -/

theorem digitChar_val {d : ℕ} (hd : d < 10) :
    (Nat.digitChar d).toNat - 48 = d := by
  interval_cases d <;> rfl

theorem digitChar_isDigit {d : ℕ} (hd : d < 10) :
    (Nat.digitChar d).isDigit = true := by
  interval_cases d <;> rfl

theorem charsToNat_append (l l' : List Char) :
    charsToNat (l ++ l') =
      l'.foldl (fun acc c => 10 * acc + (c.toNat - 48)) (charsToNat l) := by
  rw [charsToNat, List.foldl_append]; rfl

theorem charsToNat_append_digit (l : List Char) (c : Char) :
    charsToNat (l ++ [c]) = 10 * charsToNat l + (c.toNat - 48) := by
  rw [charsToNat_append]; rfl

theorem charsToNat_natCharsAux :
    ∀ (fuel n : ℕ), n ≤ fuel → charsToNat (natCharsAux fuel n) = n := by
  intro fuel
  induction fuel with
  | zero =>
    intro n hn
    interval_cases n
    rfl
  | succ fuel ih =>
    intro n hn
    by_cases hz : n = 0
    · subst hz; rfl
    · rw [natCharsAux, if_neg hz, charsToNat_append_digit,
        ih (n / 10) (by omega), digitChar_val (Nat.mod_lt n (by norm_num))]
      omega

theorem charsToNat_natChars (n : ℕ) : charsToNat (natChars n) = n := by
  by_cases hz : n = 0
  · subst hz; rfl
  · rw [natChars, if_neg hz, charsToNat_natCharsAux n n le_rfl]

theorem natCharsAux_all_digit :
    ∀ (fuel n : ℕ), ∀ c ∈ natCharsAux fuel n, c.isDigit = true := by
  intro fuel
  induction fuel with
  | zero => intro n c hc; simp [natCharsAux] at hc
  | succ fuel ih =>
    intro n c hc
    by_cases hz : n = 0
    · rw [natCharsAux, if_pos hz] at hc; simp at hc
    · rw [natCharsAux, if_neg hz] at hc
      rcases List.mem_append.mp hc with hm | hm
      · exact ih (n / 10) c hm
      · rcases List.mem_singleton.mp hm with rfl
        exact digitChar_isDigit (Nat.mod_lt n (by norm_num))

theorem natChars_all_digit (n : ℕ) : ∀ c ∈ natChars n, c.isDigit = true := by
  by_cases hz : n = 0
  · subst hz; intro c hc; rcases List.mem_singleton.mp hc with rfl; rfl
  · rw [natChars, if_neg hz]; exact natCharsAux_all_digit n n

theorem natChars_ne_nil (n : ℕ) : natChars n ≠ [] := by
  by_cases hz : n = 0
  · subst hz; simp [natChars]
  · rw [natChars, if_neg hz]
    cases n with
    | zero => exact absurd rfl hz
    | succ m =>
      rw [natCharsAux, if_neg hz]
      simp

theorem natCharsAux_length_le :
    ∀ (k fuel n : ℕ), n < 10 ^ k → (natCharsAux fuel n).length ≤ k := by
  intro k
  induction k with
  | zero =>
    intro fuel n hn
    interval_cases n
    cases fuel <;> simp [natCharsAux]
  | succ k ih =>
    intro fuel n hn
    cases fuel with
    | zero => simp [natCharsAux]
    | succ fuel =>
      by_cases hz : n = 0
      · rw [natCharsAux, if_pos hz]; simp
      · rw [natCharsAux, if_neg hz]
        have hdiv : n / 10 < 10 ^ k := by
          rw [Nat.div_lt_iff_lt_mul (by norm_num)]
          calc n < 10 ^ (k + 1) := hn
          _ = 10 ^ k * 10 := by ring
        have := ih fuel (n / 10) hdiv
        simp only [List.length_append, List.length_singleton]
        omega

theorem natChars_length_le {k n : ℕ} (hk : 1 ≤ k) (hn : n < 10 ^ k) :
    (natChars n).length ≤ k := by
  by_cases hz : n = 0
  · subst hz; simpa [natChars] using hk
  · rw [natChars, if_neg hz]; exact natCharsAux_length_le k n n hn

theorem charsToNat_replicate_zero (k : ℕ) (s : List Char) :
    charsToNat (List.replicate k '0' ++ s) = charsToNat s := by
  induction k with
  | zero => rfl
  | succ k ih =>
    rw [List.replicate_succ, List.cons_append]
    show charsToNat (List.replicate k '0' ++ s) = charsToNat s
    exact ih

theorem charsToNat_padZeros (P r : ℕ) : charsToNat (padZeros P r) = r := by
  rw [padZeros, charsToNat_replicate_zero, charsToNat_natChars]

theorem padZeros_length {P r : ℕ} (hP : 1 ≤ P) (hr : r < 10 ^ P) :
    (padZeros P r).length = P := by
  rw [padZeros, List.length_append, List.length_replicate]
  have := natChars_length_le hP hr
  omega

theorem padZeros_all_digit (P r : ℕ) :
    ∀ c ∈ padZeros P r, c.isDigit = true := by
  intro c hc
  rcases List.mem_append.mp hc with hm | hm
  · rcases List.eq_of_mem_replicate hm with rfl; rfl
  · exact natChars_all_digit r c hm

/-- `roundScaled` is the standard rounding of the scaled magnitude. -/
theorem roundScaled_eq_round (P : ℕ) (q : ℚ) :
    roundScaled P q = round (q * 10 ^ P) := by
  have hden : ((q.den : ℚ)) ≠ 0 := by
    exact_mod_cast q.den_nz
  have hq : q * (q.den : ℚ) = (q.num : ℚ) := Rat.mul_den_eq_num q
  have hdpos : (0 : ℚ) < ((2 * q.den : ℕ) : ℚ) := by
    have := q.den_pos
    exact_mod_cast Nat.pos_of_ne_zero (by omega)
  have harg : q * 10 ^ P + 1 / 2 =
      (((2 * q.num * 10 ^ P + (q.den : ℤ)) : ℤ) : ℚ) / ((2 * q.den : ℕ) : ℚ) := by
    rw [eq_div_iff (ne_of_gt hdpos)]
    push_cast
    linear_combination (2 * (10 : ℚ) ^ P) * hq
  rw [round_eq, harg, Rat.floor_intCast_div_natCast, roundScaled]
  norm_cast

/-- One np.round/format cycle moves a coordinate by at most half an ulp. -/
theorem roundScaled_close (P : ℕ) (q : ℚ) :
    |q - (roundScaled P q : ℚ) / 10 ^ P| ≤ 1 / (2 * 10 ^ P) := by
  rw [roundScaled_eq_round]
  have h10 : (0 : ℚ) < 10 ^ P := by positivity
  have habs := abs_sub_round (q * 10 ^ P)
  have hrw : q - ((round (q * 10 ^ P) : ℤ) : ℚ) / 10 ^ P =
      (q * 10 ^ P - ((round (q * 10 ^ P) : ℤ) : ℚ)) / 10 ^ P := by
    field_simp
  rw [hrw, abs_div, abs_of_pos h10]
  have : (1 : ℚ) / (2 * 10 ^ P) = (1 / 2) / 10 ^ P := by ring
  rw [this]
  exact (div_le_div_iff_of_pos_right h10).mpr habs

/-- Bounded coordinates round to at most three integer digits. -/
theorem roundScaled_natAbs_lt (P : ℕ) (q : ℚ) (h1 : -999 < q) (h2 : q < 999) :
    (roundScaled P q).natAbs < 1000 * 10 ^ P := by
  rw [roundScaled_eq_round]
  have h10 : (0 : ℚ) < 10 ^ P := by positivity
  have habs := abs_sub_round (q * 10 ^ P)
  have hq : |q| < 999 := abs_lt.mpr ⟨h1, h2⟩
  have hb : |((round (q * 10 ^ P) : ℤ) : ℚ)| < 1000 * 10 ^ P := by
    have h1' : |((round (q * 10 ^ P) : ℤ) : ℚ)| ≤ |q * 10 ^ P| + 1 / 2 := by
      have := abs_sub_abs_le_abs_sub ((round (q * 10 ^ P) : ℤ) : ℚ) (q * 10 ^ P)
      have habs' : |((round (q * 10 ^ P) : ℤ) : ℚ) - q * 10 ^ P| ≤ 1 / 2 := by
        rw [abs_sub_comm]; exact habs
      linarith
    have h2' : |q * 10 ^ P| < 999 * 10 ^ P := by
      rw [abs_mul, abs_of_pos h10]
      exact (mul_lt_mul_of_pos_right hq h10)
    have h3' : (999 : ℚ) * 10 ^ P + 1 / 2 < 1000 * 10 ^ P := by
      have : (1 : ℚ) ≤ 10 ^ P := one_le_pow₀ (by norm_num)
      nlinarith
    linarith
  have hcast : ((((round (q * 10 ^ P)).natAbs : ℕ) : ℚ)) =
      |((round (q * 10 ^ P) : ℤ) : ℚ)| := by
    push_cast [Int.cast_natAbs]
    rfl
  have : (((round (q * 10 ^ P)).natAbs : ℚ)) < ((1000 * 10 ^ P : ℕ) : ℚ) := by
    rw [hcast]; push_cast; exact hb
  exact_mod_cast this

theorem padLeftCh_length (w : ℕ) (s : List Char) :
    (padLeftCh w s).length = max w s.length := by
  rw [padLeftCh, List.length_append, List.length_replicate]
  omega

theorem dropWhile_space_replicate (k : ℕ) (s : List Char) :
    (List.replicate k ' ' ++ s).dropWhile (· == ' ') =
      s.dropWhile (· == ' ') := by
  induction k with
  | zero => rfl
  | succ k ih =>
    rw [List.replicate_succ, List.cons_append, List.dropWhile_cons]
    simp only [ih]
    rfl

theorem dropWhile_space_of_head (c : Char) (t : List Char) (hc : c ≠ ' ') :
    (c :: t).dropWhile (· == ' ') = c :: t := by
  rw [List.dropWhile_cons, if_neg (by simpa using hc)]

/-- Stripping a right-justified field recovers the content when the
content neither starts nor ends with a space. -/
theorem stripCh_padLeftCh (w : ℕ) (c : Char) (t : List Char) (hc : c ≠ ' ')
    (hlast : ∀ d, (c :: t).getLast? = some d → d ≠ ' ') :
    stripCh (padLeftCh w (c :: t)) = c :: t := by
  rw [stripCh, padLeftCh, dropWhile_space_replicate,
    dropWhile_space_of_head c t hc]
  rcases List.eq_nil_or_concat (c :: t) with h | ⟨l2, d, hconcat⟩
  · simp at h
  · have hd : d ≠ ' ' := hlast d (by
      rw [hconcat, List.concat_eq_append, List.getLast?_concat])
    have hconcat' : c :: t = l2 ++ [d] := by
      rw [hconcat, List.concat_eq_append]
    rw [hconcat', List.reverse_append, List.reverse_cons, List.reverse_nil,
      List.nil_append, List.singleton_append,
      dropWhile_space_of_head d l2.reverse hd, List.reverse_cons,
      List.reverse_reverse]

theorem takeWhile_digits_append (l : List Char) (c : Char) (t : List Char)
    (hl : ∀ x ∈ l, x.isDigit = true) (hc : c.isDigit = false) :
    (l ++ c :: t).takeWhile Char.isDigit = l := by
  induction l with
  | nil => simp [List.takeWhile_cons, hc]
  | cons a l ih =>
    rw [List.cons_append, List.takeWhile_cons,
      if_pos (hl a (List.mem_cons_self a l))]
    rw [ih (fun x hx => hl x (List.mem_cons_of_mem a hx))]

theorem isDigit_ne_space {c : Char} (h : c.isDigit = true) : c ≠ ' ' := by
  intro hc
  subst hc
  exact absurd h (by decide)

theorem isDigit_ne_minus {c : Char} (h : c.isDigit = true) : c ≠ '-' := by
  intro hc
  subst hc
  exact absurd h (by decide)

theorem isDigit_ne_period {c : Char} (h : c.isDigit = true) : c ≠ '.' := by
  intro hc
  subst hc
  exact absurd h (by decide)

/-- Parsing the digits-dot-digits rendering recovers the value. -/
theorem pyFloatUnsigned_fracRender (P a : ℕ) (hP : 1 ≤ P) :
    pyFloatUnsigned (fracRender P a) = some ((a : ℚ) / 10 ^ P) := by
  have hmod : a % 10 ^ P < 10 ^ P := Nat.mod_lt a (by positivity)
  have htake : (fracRender P a).takeWhile Char.isDigit =
      natChars (a / 10 ^ P) := by
    rw [fracRender]
    exact takeWhile_digits_append _ _ _ (natChars_all_digit _) (by decide)
  have hdrop : (fracRender P a).drop (natChars (a / 10 ^ P)).length =
      '.' :: padZeros P (a % 10 ^ P) := by
    rw [fracRender]
    exact List.drop_left _ _
  rw [pyFloatUnsigned]
  simp only [htake, hdrop]
  have hne : (natChars (a / 10 ^ P)).isEmpty = false := by
    rcases List.exists_cons_of_ne_nil (natChars_ne_nil (a / 10 ^ P)) with
      ⟨c, t, hct⟩
    rw [hct]; rfl
  rw [hne]
  simp only [Bool.false_eq_true, if_false]
  have hall : (padZeros P (a % 10 ^ P)).all Char.isDigit = true :=
    List.all_eq_true.mpr (fun c hc => padZeros_all_digit P _ c hc)
  rw [hall]
  simp only [if_true, charsToNat_natChars, charsToNat_padZeros,
    padZeros_length hP hmod, Option.some.injEq]
  have hq : ((10 : ℚ) ^ P) * ((a / 10 ^ P : ℕ) : ℚ) + ((a % 10 ^ P : ℕ) : ℚ)
      = (a : ℚ) := by
    exact_mod_cast Nat.div_add_mod a (10 ^ P)
  have h10 : (10 : ℚ) ^ P ≠ 0 := by positivity
  field_simp
  linarith [hq]

theorem fracRender_no_space (P a : ℕ) : ∀ c ∈ fracRender P a, c ≠ ' ' := by
  intro c hc
  rw [fracRender] at hc
  rcases List.mem_append.mp hc with hm | hm
  · exact isDigit_ne_space (natChars_all_digit _ c hm)
  · rcases List.mem_cons.mp hm with rfl | hm
    · decide
    · exact isDigit_ne_space (padZeros_all_digit _ _ c hm)

theorem fracRender_head (P a : ℕ) :
    ∃ c t, fracRender P a = c :: t ∧ c.isDigit = true := by
  rcases List.exists_cons_of_ne_nil (natChars_ne_nil (a / 10 ^ P)) with
    ⟨c, t, hct⟩
  refine ⟨c, t ++ '.' :: padZeros P (a % 10 ^ P), ?_, ?_⟩
  · rw [fracRender, hct, List.cons_append]
  · exact natChars_all_digit _ c (hct ▸ List.mem_cons_self c t)

theorem mem_of_getLast?_eq {α : Type} {l : List α} {a : α}
    (h : l.getLast? = some a) : a ∈ l := by
  have hm : a ∈ l.getLast? := by rw [Option.mem_def, h]
  rcases List.mem_getLast?_eq_getLast hm with ⟨hne, rfl⟩
  exact List.getLast_mem hne

theorem fracRender_getLast_ne_space (P a : ℕ) :
    ∀ d, (fracRender P a).getLast? = some d → d ≠ ' ' := by
  intro d hd
  exact fracRender_no_space P a d (mem_of_getLast?_eq hd)

/-- Parsing a right-justified formatted magnitude recovers the value. -/
theorem pyFloat_padded_fmtFInt (w P : ℕ) (m : ℤ) (hP : 1 ≤ P) :
    pyFloat (padLeftCh w (fmtFInt P m)) = some ((m : ℚ) / 10 ^ P) := by
  by_cases hm : m < 0
  · rw [fmtFInt, if_pos hm]
    rcases fracRender_head P m.natAbs with ⟨c, t, hct, hcd⟩
    have hstrip : stripCh (padLeftCh w ('-' :: fracRender P m.natAbs)) =
        '-' :: fracRender P m.natAbs := by
      apply stripCh_padLeftCh w '-' _ (by decide)
      intro d hd
      rw [hct, List.getLast?_cons_cons, ← hct] at hd
      exact fracRender_getLast_ne_space P m.natAbs d hd
    rw [pyFloat, hstrip]
    have hred : (match '-' :: fracRender P m.natAbs with
        | '-' :: rest => (pyFloatUnsigned rest).map Neg.neg
        | t => pyFloatUnsigned t) =
        (pyFloatUnsigned (fracRender P m.natAbs)).map Neg.neg := by
      split
      · next rest heq =>
          rw [List.cons.injEq] at heq
          rw [heq.2]
      · next h2 => exact (h2 (fracRender P m.natAbs) rfl).elim
    rw [hred, pyFloatUnsigned_fracRender P m.natAbs hP]
    rw [Option.map_some']
    congr 1
    rw [Int.cast_natAbs]
    rw [abs_of_neg hm]
    push_cast
    ring
  · rw [fmtFInt, if_neg hm]
    rcases fracRender_head P m.natAbs with ⟨c, t, hct, hcd⟩
    have hstrip : stripCh (padLeftCh w (fracRender P m.natAbs)) =
        fracRender P m.natAbs := by
      rw [hct]
      apply stripCh_padLeftCh w c t (isDigit_ne_space hcd)
      intro d hd
      exact fracRender_getLast_ne_space P m.natAbs d (hct ▸ hd)
    rw [pyFloat, hstrip, hct]
    have hred : (match c :: t with
        | '-' :: rest => (pyFloatUnsigned rest).map Neg.neg
        | t => pyFloatUnsigned t) = pyFloatUnsigned (c :: t) := by
      have hcne : c ≠ '-' := isDigit_ne_minus hcd
      split
      · next rest heq =>
          rw [List.cons.injEq] at heq
          exact absurd heq.1 hcne
      · rfl
    rw [hred, ← hct, pyFloatUnsigned_fracRender P m.natAbs hP]
    congr 2
    rw [Int.cast_natAbs]
    rw [abs_of_nonneg (not_lt.mp hm)]

theorem periodIdxsFrom_append (a : List Char) :
    ∀ (b : List Char) (i : ℕ),
      periodIdxsFrom (a ++ b) i =
        periodIdxsFrom a i ++ periodIdxsFrom b (i + a.length) := by
  induction a with
  | nil => intro b i; simp [periodIdxsFrom]
  | cons c t ih =>
    intro b i
    rw [List.cons_append, periodIdxsFrom, periodIdxsFrom]
    by_cases hc : (c == '.') = true
    · rw [if_pos hc, if_pos hc, List.cons_append, ih b (i + 1)]
      congr 3
      simp only [List.length_cons]
      omega
    · rw [if_neg hc, if_neg hc, ih b (i + 1)]
      congr 2
      simp only [List.length_cons]
      omega

theorem periodIdxsFrom_nil_of_no_period (l : List Char)
    (h : ∀ c ∈ l, c ≠ '.') : ∀ i, periodIdxsFrom l i = [] := by
  induction l with
  | nil => intro i; rfl
  | cons c t ih =>
    intro i
    rw [periodIdxsFrom,
      if_neg (by simpa using h c (List.mem_cons_self c t)),
      ih (fun x hx => h x (List.mem_cons_of_mem c hx))]

theorem periodIdxs_single_period (A B : List Char) (hA : ∀ c ∈ A, c ≠ '.')
    (hB : ∀ c ∈ B, c ≠ '.') (i : ℕ) :
    periodIdxsFrom (A ++ '.' :: B) i = [i + A.length] := by
  rw [periodIdxsFrom_append, periodIdxsFrom_nil_of_no_period A hA,
    List.nil_append, periodIdxsFrom, if_pos (by rfl),
    periodIdxsFrom_nil_of_no_period B hB]

/-- A formatted field of width `w` has its single decimal point at offset
`w - (P + 1)`. -/
theorem periodIdxsFrom_padLeft_fmtFInt (w P : ℕ) (m : ℤ) (hP : 1 ≤ P)
    (hlen : (fmtFInt P m).length ≤ w) (i : ℕ) :
    periodIdxsFrom (padLeftCh w (fmtFInt P m)) i = [i + (w - (P + 1))] := by
  have hmod : m.natAbs % 10 ^ P < 10 ^ P := Nat.mod_lt _ (by positivity)
  have hpadB : ∀ c ∈ padZeros P (m.natAbs % 10 ^ P), c ≠ '.' :=
    fun c hc => isDigit_ne_period (padZeros_all_digit _ _ c hc)
  have hdigA : ∀ c ∈ natChars (m.natAbs / 10 ^ P), c ≠ '.' :=
    fun c hc => isDigit_ne_period (natChars_all_digit _ c hc)
  have hq0 : 1 ≤ (natChars (m.natAbs / 10 ^ P)).length := by
    rcases List.exists_cons_of_ne_nil (natChars_ne_nil (m.natAbs / 10 ^ P))
      with ⟨c, t, hct⟩
    rw [hct]
    simp
  have hplen : (padZeros P (m.natAbs % 10 ^ P)).length = P :=
    padZeros_length hP hmod
  by_cases hm : m < 0
  · have hform : padLeftCh w (fmtFInt P m) =
        (List.replicate (w - (fmtFInt P m).length) ' ' ++
          '-' :: natChars (m.natAbs / 10 ^ P)) ++
        '.' :: padZeros P (m.natAbs % 10 ^ P) := by
      rw [padLeftCh, fmtFInt, if_pos hm, fracRender]
      simp only [List.append_assoc, List.cons_append, List.nil_append]
    rw [hform, periodIdxs_single_period]
    · congr 2
      have hflen : (fmtFInt P m).length =
          1 + (natChars (m.natAbs / 10 ^ P)).length + 1 + P := by
        rw [fmtFInt, if_pos hm, fracRender]
        simp only [List.length_cons, List.length_append, hplen]
        omega
      simp only [List.length_append, List.length_replicate, List.length_cons]
      omega
    · intro c hc
      rcases List.mem_append.mp hc with hmem | hmem
      · rcases List.eq_of_mem_replicate hmem with rfl; decide
      · rcases List.mem_cons.mp hmem with rfl | hmem
        · decide
        · exact hdigA c hmem
    · exact hpadB
  · have hform : padLeftCh w (fmtFInt P m) =
        (List.replicate (w - (fmtFInt P m).length) ' ' ++
          natChars (m.natAbs / 10 ^ P)) ++
        '.' :: padZeros P (m.natAbs % 10 ^ P) := by
      rw [padLeftCh, fmtFInt, if_neg hm, fracRender]
      simp only [List.append_assoc]
    rw [hform, periodIdxs_single_period]
    · congr 2
      have hflen : (fmtFInt P m).length =
          (natChars (m.natAbs / 10 ^ P)).length + 1 + P := by
        rw [fmtFInt, if_neg hm, fracRender]
        simp only [List.length_cons, List.length_append, hplen]
        omega
      simp only [List.length_append, List.length_replicate]
      omega
    · intro c hc
      rcases List.mem_append.mp hc with hmem | hmem
      · rcases List.eq_of_mem_replicate hmem with rfl; decide
      · exact hdigA c hmem
    · exact hpadB

/-- The bounded-coordinate field: exact width `P + 5`, decimal point at
offset 4, and parsing recovers the rounded value. -/
theorem coordField_spec (P : ℕ) (x : ℚ) (hP : 1 ≤ P)
    (h1 : -999 < x) (h2 : x < 999) :
    (coordField P x).length = P + 5 ∧
    (∀ i, periodIdxsFrom (coordField P x) i = [i + 4]) ∧
    pyFloat (coordField P x) = some ((roundScaled P x : ℚ) / 10 ^ P) := by
  have habs := roundScaled_natAbs_lt P x h1 h2
  have hdivlt : (roundScaled P x).natAbs / 10 ^ P < 1000 := by
    rw [Nat.div_lt_iff_lt_mul (by positivity)]
    calc (roundScaled P x).natAbs < 1000 * 10 ^ P := habs
    _ = 1000 * 10 ^ P := rfl
  have hq0len : (natChars ((roundScaled P x).natAbs / 10 ^ P)).length ≤ 3 :=
    natChars_length_le (by norm_num) (by simpa using hdivlt)
  have hmod : (roundScaled P x).natAbs % 10 ^ P < 10 ^ P :=
    Nat.mod_lt _ (by positivity)
  have hplen : (padZeros P ((roundScaled P x).natAbs % 10 ^ P)).length = P :=
    padZeros_length hP hmod
  have hflen : (fmtFInt P (roundScaled P x)).length ≤ P + 5 := by
    rw [fmtFInt]
    by_cases hm : roundScaled P x < 0
    · rw [if_pos hm, List.length_cons, fracRender, List.length_append,
        List.length_cons, hplen]
      omega
    · rw [if_neg hm, fracRender, List.length_append, List.length_cons, hplen]
      omega
  refine ⟨?_, ?_, ?_⟩
  · rw [coordField, padLeftCh_length]
    omega
  · intro i
    have := periodIdxsFrom_padLeft_fmtFInt (P + 5) P (roundScaled P x) hP
      hflen i
    rw [coordField]
    rw [this]
    congr 1
    omega
  · rw [coordField]
    exact pyFloat_padded_fmtFInt (P + 5) P (roundScaled P x) hP

theorem padRightCh_length (w : ℕ) (s : List Char) :
    (padRightCh w s).length = max w s.length := by
  rw [padRightCh, List.length_append, List.length_replicate]
  omega

theorem slice_start (B C : List Char) (n : ℕ) (hB : B.length = n) :
    slice (B ++ C) 0 n = B := by
  rw [slice, List.drop_zero, Nat.sub_zero, List.take_left' hB]

theorem slice_mid (A B C : List Char) (a n : ℕ) (hA : A.length = a)
    (hB : B.length = n) :
    slice (A ++ (B ++ C)) a (a + n) = B := by
  rw [slice, Nat.add_sub_cancel_left, List.drop_left' hA, List.take_left' hB]

theorem slice_end (A B : List Char) (a n : ℕ) (hA : A.length = a)
    (hB : B.length = n) :
    slice (A ++ B) a (a + n) = B := by
  rw [slice, Nat.add_sub_cancel_left, List.drop_left' hA, List.take_of_length_le]
  omega

/-- `int` of a right-justified decimal field recovers the value. -/
theorem pyIntOfStr_padLeft_natChars (w n : ℕ) :
    pyIntOfStr (padLeftCh w (natChars n)) = some (n : ℤ) := by
  rcases List.exists_cons_of_ne_nil (natChars_ne_nil n) with ⟨c, t, hct⟩
  have hcd : c.isDigit = true :=
    natChars_all_digit n c (hct ▸ List.mem_cons_self c t)
  have hstrip : stripCh (padLeftCh w (natChars n)) = natChars n := by
    rw [hct]
    apply stripCh_padLeftCh w c t (isDigit_ne_space hcd)
    intro d hd
    exact isDigit_ne_space (natChars_all_digit n d
      (mem_of_getLast?_eq (hct ▸ hd)))
  rw [pyIntOfStr, hstrip, hct]
  have hred : (match c :: t with
      | '-' :: rest => (parseNatDigits rest).map (fun k => -(k : ℤ))
      | t => (parseNatDigits t).map (fun k => (k : ℤ))) =
      (parseNatDigits (c :: t)).map (fun k => (k : ℤ)) := by
    split
    · next rest heq =>
        rw [List.cons.injEq] at heq
        exact absurd heq.1 (isDigit_ne_minus hcd)
    · rfl
  rw [hred, ← hct, parseNatDigits]
  have hne : (natChars n).isEmpty = false := by rw [hct]; rfl
  have hall : (natChars n).all Char.isDigit = true :=
    List.all_eq_true.mpr (natChars_all_digit n)
  rw [hne, hall]
  simp [charsToNat_natChars]

/-- Field decomposition of one particle record. -/
theorem groAtomLine_slices (P ri ai : ℕ) (rn an : List Char) (pos : Vec3)
    (hP : 1 ≤ P)
    (hri : ri < 100000) (hai : ai < 100000)
    (hrn : rn.length ≤ 5) (han : an.length ≤ 5)
    (h1 : -999 < pos.1) (h2 : pos.1 < 999)
    (h3 : -999 < pos.2.1) (h4 : pos.2.1 < 999)
    (h5 : -999 < pos.2.2) (h6 : pos.2.2 < 999) :
    slice (groAtomLine P ri rn an ai pos) 0 5 = padLeftCh 5 (natChars ri) ∧
    slice (groAtomLine P ri rn an ai pos) 15 20 =
      padLeftCh 5 (natChars ai) ∧
    slice (groAtomLine P ri rn an ai pos) 20 (20 + (P + 5)) =
      coordField P pos.1 ∧
    slice (groAtomLine P ri rn an ai pos) (20 + (P + 5)) (20 + 2 * (P + 5)) =
      coordField P pos.2.1 ∧
    slice (groAtomLine P ri rn an ai pos) (20 + 2 * (P + 5))
      (20 + 3 * (P + 5)) = coordField P pos.2.2 ∧
    (groAtomLine P ri rn an ai pos).length = 20 + 3 * (P + 5) := by
  have hf1 := (coordField_spec P pos.1 hP h1 h2).1
  have hf2 := (coordField_spec P pos.2.1 hP h3 h4).1
  have hf3 := (coordField_spec P pos.2.2 hP h5 h6).1
  have hten : (10 : ℕ) ^ 5 = 100000 := by norm_num
  have hp1 : (padLeftCh 5 (natChars ri)).length = 5 := by
    rw [padLeftCh_length]
    have := natChars_length_le (k := 5) (n := ri) (by norm_num) (by omega)
    omega
  have hp2 : (padRightCh 5 rn).length = 5 := by
    rw [padRightCh_length]; omega
  have hp3 : (padLeftCh 5 an).length = 5 := by
    rw [padLeftCh_length]; omega
  have hp4 : (padLeftCh 5 (natChars ai)).length = 5 := by
    rw [padLeftCh_length]
    have := natChars_length_le (k := 5) (n := ai) (by norm_num) (by omega)
    omega
  have e1 : groAtomLine P ri rn an ai pos =
      padLeftCh 5 (natChars ri) ++ (padRightCh 5 rn ++ (padLeftCh 5 an ++
        (padLeftCh 5 (natChars ai) ++ (coordField P pos.1 ++
        (coordField P pos.2.1 ++ coordField P pos.2.2))))) := by
    simp [groAtomLine, List.append_assoc]
  have e2 : groAtomLine P ri rn an ai pos =
      (padLeftCh 5 (natChars ri) ++ (padRightCh 5 rn ++ padLeftCh 5 an)) ++
      (padLeftCh 5 (natChars ai) ++ (coordField P pos.1 ++
        (coordField P pos.2.1 ++ coordField P pos.2.2))) := by
    simp [groAtomLine, List.append_assoc]
  have e3 : groAtomLine P ri rn an ai pos =
      (padLeftCh 5 (natChars ri) ++ (padRightCh 5 rn ++ (padLeftCh 5 an ++
        padLeftCh 5 (natChars ai)))) ++
      (coordField P pos.1 ++ (coordField P pos.2.1 ++
        coordField P pos.2.2)) := by
    simp [groAtomLine, List.append_assoc]
  have e4 : groAtomLine P ri rn an ai pos =
      ((padLeftCh 5 (natChars ri) ++ (padRightCh 5 rn ++ (padLeftCh 5 an ++
        padLeftCh 5 (natChars ai)))) ++ coordField P pos.1) ++
      (coordField P pos.2.1 ++ coordField P pos.2.2) := by
    simp [groAtomLine, List.append_assoc]
  have e5 : groAtomLine P ri rn an ai pos =
      (((padLeftCh 5 (natChars ri) ++ (padRightCh 5 rn ++ (padLeftCh 5 an ++
        padLeftCh 5 (natChars ai)))) ++ coordField P pos.1) ++
        coordField P pos.2.1) ++ coordField P pos.2.2 := by
    simp [groAtomLine, List.append_assoc]
  have hpre15 : (padLeftCh 5 (natChars ri) ++ (padRightCh 5 rn ++
      padLeftCh 5 an)).length = 15 := by
    simp only [List.length_append]; omega
  have hpre20 : (padLeftCh 5 (natChars ri) ++ (padRightCh 5 rn ++
      (padLeftCh 5 an ++ padLeftCh 5 (natChars ai)))).length = 20 := by
    simp only [List.length_append]; omega
  have hpre20f1 : ((padLeftCh 5 (natChars ri) ++ (padRightCh 5 rn ++
      (padLeftCh 5 an ++ padLeftCh 5 (natChars ai)))) ++
      coordField P pos.1).length = 20 + (P + 5) := by
    simp only [List.length_append]; omega
  have hpre20f1f2 : (((padLeftCh 5 (natChars ri) ++ (padRightCh 5 rn ++
      (padLeftCh 5 an ++ padLeftCh 5 (natChars ai)))) ++
      coordField P pos.1) ++ coordField P pos.2.1).length =
        20 + 2 * (P + 5) := by
    simp only [List.length_append]; omega
  refine ⟨?_, ?_, ?_, ?_, ?_, ?_⟩
  · rw [e1]; exact slice_start _ _ 5 hp1
  · rw [e2]; exact slice_mid _ _ _ 15 5 hpre15 hp4
  · rw [e3]; exact slice_mid _ _ _ 20 (P + 5) hpre20 hf1
  · rw [show 20 + 2 * (P + 5) = (20 + (P + 5)) + (P + 5) by ring, e4]
    exact slice_mid _ _ _ (20 + (P + 5)) (P + 5) hpre20f1 hf2
  · rw [show 20 + 3 * (P + 5) = (20 + 2 * (P + 5)) + (P + 5) by ring, e5]
    exact slice_end _ _ (20 + 2 * (P + 5)) (P + 5) hpre20f1f2 hf3
  · rw [e1]
    simp only [List.length_append]
    omega

/-- The last two decimal points of a particle record sit `P + 5` columns
apart, regardless of any periods in the name fields. -/
theorem periodIdxs_groAtomLine (P ri ai : ℕ) (rn an : List Char) (pos : Vec3)
    (hP : 1 ≤ P)
    (hri : ri < 100000) (hai : ai < 100000)
    (hrn : rn.length ≤ 5) (han : an.length ≤ 5)
    (h1 : -999 < pos.1) (h2 : pos.1 < 999)
    (h3 : -999 < pos.2.1) (h4 : pos.2.1 < 999)
    (h5 : -999 < pos.2.2) (h6 : pos.2.2 < 999) :
    ∃ rest, (periodIdxs (groAtomLine P ri rn an ai pos)).reverse =
      (20 + 2 * (P + 5) + 4) :: ((20 + (P + 5) + 4) :: rest) := by
  obtain ⟨-, -, -, -, -, -⟩ := groAtomLine_slices P ri ai rn an pos hP hri hai
    hrn han h1 h2 h3 h4 h5 h6
  have e3 : groAtomLine P ri rn an ai pos =
      (padLeftCh 5 (natChars ri) ++ (padRightCh 5 rn ++ (padLeftCh 5 an ++
        padLeftCh 5 (natChars ai)))) ++
      (coordField P pos.1 ++ (coordField P pos.2.1 ++
        coordField P pos.2.2)) := by
    simp [groAtomLine, List.append_assoc]
  have hten : (10 : ℕ) ^ 5 = 100000 := by norm_num
  have hp1 : (padLeftCh 5 (natChars ri)).length = 5 := by
    rw [padLeftCh_length]
    have := natChars_length_le (k := 5) (n := ri) (by norm_num) (by omega)
    omega
  have hp2 : (padRightCh 5 rn).length = 5 := by
    rw [padRightCh_length]; omega
  have hp3 : (padLeftCh 5 an).length = 5 := by
    rw [padLeftCh_length]; omega
  have hp4 : (padLeftCh 5 (natChars ai)).length = 5 := by
    rw [padLeftCh_length]
    have := natChars_length_le (k := 5) (n := ai) (by norm_num) (by omega)
    omega
  have hpre20 : (padLeftCh 5 (natChars ri) ++ (padRightCh 5 rn ++
      (padLeftCh 5 an ++ padLeftCh 5 (natChars ai)))).length = 20 := by
    simp only [List.length_append]; omega
  have hf1 := (coordField_spec P pos.1 hP h1 h2).1
  have hf2 := (coordField_spec P pos.2.1 hP h3 h4).1
  have pf1 := (coordField_spec P pos.1 hP h1 h2).2.1
  have pf2 := (coordField_spec P pos.2.1 hP h3 h4).2.1
  have pf3 := (coordField_spec P pos.2.2 hP h5 h6).2.1
  rw [periodIdxs, e3,
    periodIdxsFrom_append (padLeftCh 5 (natChars ri) ++ (padRightCh 5 rn ++
      (padLeftCh 5 an ++ padLeftCh 5 (natChars ai)))),
    periodIdxsFrom_append (coordField P pos.1),
    periodIdxsFrom_append (coordField P pos.2.1),
    pf1, pf2, pf3, hpre20, hf1, hf2]
  refine ⟨(0 + 20 + 4) :: (periodIdxsFrom (padLeftCh 5 (natChars ri) ++
    (padRightCh 5 rn ++ (padLeftCh 5 an ++ padLeftCh 5 (natChars ai))))
      0).reverse, ?_⟩
  simp only [List.reverse_append, List.reverse_cons, List.reverse_nil,
    List.nil_append, List.cons_append, List.singleton_append,
    List.cons.injEq]
  exact ⟨by ring, trivial⟩

/-- Parsing one written particle record recovers the rounded position. -/
theorem readCoordLine_groAtomLine (P ri ai : ℕ) (rn an : List Char)
    (pos : Vec3) (hP : 1 ≤ P)
    (hri : ri < 100000) (hai : ai < 100000)
    (hrn : rn.length ≤ 5) (han : an.length ≤ 5)
    (h1 : -999 < pos.1) (h2 : pos.1 < 999)
    (h3 : -999 < pos.2.1) (h4 : pos.2.1 < 999)
    (h5 : -999 < pos.2.2) (h6 : pos.2.2 < 999) :
    readCoordLine (P + 5) (groAtomLine P ri rn an ai pos) =
      .ok (((roundScaled P pos.1 : ℤ) : ℚ) / 10 ^ P,
           ((roundScaled P pos.2.1 : ℤ) : ℚ) / 10 ^ P,
           ((roundScaled P pos.2.2 : ℤ) : ℚ) / 10 ^ P) := by
  obtain ⟨c1, c2, c3, c4, c5, -⟩ := groAtomLine_slices P ri ai rn an pos hP
    hri hai hrn han h1 h2 h3 h4 h5 h6
  have px := (coordField_spec P pos.1 hP h1 h2).2.2
  have py := (coordField_spec P pos.2.1 hP h3 h4).2.2
  have pz := (coordField_spec P pos.2.2 hP h5 h6).2.2
  rw [readCoordLine]
  simp only [c1, c2, c3, c4, c5, pyIntOfStr_padLeft_natChars, px, py, pz,
    bind, Except.bind]

theorem padLeftCh_zero (s : List Char) : padLeftCh 0 s = s := by
  simp [padLeftCh]

/-- The coordinate loop succeeds when each referenced line parses. -/
theorem readCoordLines_of_forall₂ (w : ℕ) (lines : List (List Char)) :
    ∀ (records : List (List Char)) (vals : List Vec3) (i : ℕ),
      (∀ j, j < records.length → lines.get? (i + j) = records.get? j) →
      List.Forall₂ (fun rec v => readCoordLine w rec = .ok v) records vals →
      readCoordLines w lines i records.length = .ok vals := by
  intro records
  induction records with
  | nil =>
    intro vals i _ hf
    cases hf
    rfl
  | cons rec rest ih =>
    intro vals i hget hf
    cases hf with
    | cons hhead htail =>
      rw [List.length_cons, readCoordLines]
      have h0 : lines.get? i = some rec := by
        have := hget 0 (by simp)
        simpa using this
      have hrest : readCoordLines w lines (i + 1) rest.length =
          .ok _ := ih _ (i + 1) (fun j hj => by
            have := hget (j + 1) (by simp only [List.length_cons]; omega)
            rw [show i + (j + 1) = i + 1 + j by omega] at this
            simpa using this) htail
      rw [h0]
      simp only [Option.getD_some, bind, Except.bind, hhead, hrest]

theorem toGroLines_get?_record (sys : Interchange) (P : ℕ)
    (records : List (List Char))
    (hrec : toGroLines sys P = "Generated by OpenFF".toList ::
      natChars (sys.positions.length + (buildVirtualSiteMap sys).length) ::
      (records ++ [boxLineChars sys.box])) :
    (∀ j, j < records.length →
      (toGroLines sys P).get? (2 + j) = records.get? j) ∧
    (toGroLines sys P).get? (2 + records.length) =
      some (boxLineChars sys.box) ∧
    (toGroLines sys P).get? 1 =
      some (natChars (sys.positions.length +
        (buildVirtualSiteMap sys).length)) := by
  refine ⟨fun j hj => ?_, ?_, ?_⟩
  · rw [hrec, Nat.add_comm 2 j]
    show (records ++ [boxLineChars sys.box]).get? j = records.get? j
    exact List.get?_append hj
  · rw [hrec, Nat.add_comm 2 records.length]
    show (records ++ [boxLineChars sys.box]).get? records.length = _
    rw [List.get?_append_right le_rfl]
    simp
  · rw [hrec]
    rfl

/-- The `to_gro` output is the title, the particle count, one record per
particle, and the box line. -/
theorem toGroLines_decomp (sys : Interchange) (P : ℕ) :
    toGroLines sys P = "Generated by OpenFF".toList ::
      natChars (sys.positions.length + (buildVirtualSiteMap sys).length) ::
      (groRecords sys P ++ [boxLineChars sys.box]) := rfl

/-! #### Whitespace splitting of the box line -/

theorem splitWsAux_replicate (k : ℕ) (s : List Char) :
    splitWsAux (List.replicate k ' ' ++ s) [] = splitWsAux s [] := by
  induction k with
  | zero => rfl
  | succ k ih =>
    rw [List.replicate_succ, List.cons_append, splitWsAux]
    simpa using ih

theorem splitWsAux_token (c : List Char) (hc : ∀ x ∈ c, x ≠ ' ') :
    ∀ (acc rest : List Char),
      splitWsAux (c ++ rest) acc = splitWsAux rest (c.reverse ++ acc) := by
  induction c with
  | nil => intro acc rest; simp
  | cons x t ih =>
    intro acc rest
    rw [List.cons_append, splitWsAux,
      if_neg (by simpa using hc x (List.mem_cons_self x t)),
      ih (fun y hy => hc y (List.mem_cons_of_mem x hy)) (x :: acc) rest]
    congr 1
    simp

theorem splitWsAux_space_cons (rest : List Char) (acc : List Char)
    (hacc : acc ≠ []) :
    splitWsAux (' ' :: rest) acc = acc.reverse :: splitWsAux rest [] := by
  rw [splitWsAux, if_pos (by decide), if_neg (by simpa using hacc)]

theorem splitWsAux_lead (k : ℕ) (c : List Char) (hc : c ≠ [])
    (nc : ∀ x ∈ c, x ≠ ' ') (rest : List Char) :
    splitWsAux (List.replicate k ' ' ++ (c ++ (' ' :: rest))) [] =
      c :: splitWsAux rest [] := by
  rw [splitWsAux_replicate, splitWsAux_token c nc, List.append_nil,
    splitWsAux_space_cons _ _ (by simpa using hc), List.reverse_reverse]

theorem splitWsAux_last (k : ℕ) (c : List Char) (hc : c ≠ [])
    (nc : ∀ x ∈ c, x ≠ ' ') :
    splitWsAux (List.replicate k ' ' ++ c) [] = [c] := by
  rw [splitWsAux_replicate,
    show c = c ++ [] from (List.append_nil c).symm,
    splitWsAux_token c nc, splitWsAux]
  rw [List.append_nil, List.append_nil, if_neg (by simpa using hc),
    List.reverse_reverse]

/-- Splitting three right-justified fields yields the three contents. -/
theorem splitWs_three_padded (k1 k2 k3 : ℕ) (c1 c2 c3 : List Char)
    (h1 : c1 ≠ []) (h2 : c2 ≠ []) (h3 : c3 ≠ [])
    (n1 : ∀ x ∈ c1, x ≠ ' ') (n2 : ∀ x ∈ c2, x ≠ ' ')
    (n3 : ∀ x ∈ c3, x ≠ ' ') :
    splitWs ((List.replicate (k1 + 1) ' ' ++ c1) ++
      ((List.replicate (k2 + 1) ' ' ++ c2) ++
        (List.replicate (k3 + 1) ' ' ++ c3))) = [c1, c2, c3] := by
  rw [splitWs]
  rw [show (List.replicate (k1 + 1) ' ' ++ c1) ++
      ((List.replicate (k2 + 1) ' ' ++ c2) ++
        (List.replicate (k3 + 1) ' ' ++ c3)) =
      List.replicate (k1 + 1) ' ' ++ (c1 ++ (' ' ::
        (List.replicate k2 ' ' ++ (c2 ++ (' ' ::
          (List.replicate k3 ' ' ++ c3)))))) by
    rw [List.replicate_succ ' ' k2, List.replicate_succ ' ' k3]
    simp [List.append_assoc]]
  rw [splitWsAux_lead _ _ h1 n1, splitWsAux_lead _ _ h2 n2,
    splitWsAux_last _ _ h3 n3]

theorem forall₂_append_of {α β : Type} (R : α → β → Prop) :
    ∀ (a : List α) (b : List β) (c : List α) (d : List β),
      List.Forall₂ R a b → List.Forall₂ R c d →
      List.Forall₂ R (a ++ c) (b ++ d) := by
  intro a
  induction a with
  | nil =>
    intro b c d h1 h2
    cases h1
    simpa using h2
  | cons x t ih =>
    intro b c d h1 h2
    cases h1 with
    | cons hx ht => exact List.Forall₂.cons hx (ih _ _ _ ht h2)

theorem roundScaled_nonneg (P : ℕ) (q : ℚ) (h : 0 ≤ q) :
    0 ≤ roundScaled P q := by
  rw [roundScaled]
  apply Int.ediv_nonneg
  · have hnum : 0 ≤ q.num := Rat.num_nonneg.mpr h
    have hden : (0 : ℤ) ≤ (q.den : ℤ) := by positivity
    have hpow : (0 : ℤ) ≤ 10 ^ P := by positivity
    nlinarith
  · positivity

theorem roundScaled_le_bound (P : ℕ) (q : ℚ) (hq : q < 99) :
    roundScaled P q ≤ 99 * 10 ^ P := by
  rw [roundScaled_eq_round]
  have h10 : (0 : ℚ) < 10 ^ P := by positivity
  have habs := abs_le.mp (abs_sub_round (q * 10 ^ P))
  have h1 : ((round (q * 10 ^ P) : ℤ) : ℚ) ≤ q * 10 ^ P + 1 / 2 := by
    linarith [habs.1]
  have h2 : ((round (q * 10 ^ P) : ℤ) : ℚ) <
      ((99 * 10 ^ P + 1 : ℤ) : ℚ) := by
    push_cast
    have := mul_lt_mul_of_pos_right hq h10
    linarith
  have h3 : round (q * 10 ^ P) < 99 * 10 ^ P + 1 := by exact_mod_cast h2
  omega

/-- A `%11.7f` box field of a value in `[0, 99)` is at least one space
followed by a space-free parsable token. -/
theorem boxField_decomp (b : ℚ) (hb : 0 ≤ b) (hb2 : b < 99) :
    ∃ k c, boxField b = List.replicate (k + 1) ' ' ++ c ∧ c ≠ [] ∧
      (∀ x ∈ c, x ≠ ' ') ∧
      pyFloat c = some (((roundScaled 7 b : ℤ) : ℚ) / 10 ^ 7) := by
  have hm0 : 0 ≤ roundScaled 7 b := roundScaled_nonneg 7 b hb
  have hm1 : roundScaled 7 b ≤ 99 * 10 ^ 7 := roundScaled_le_bound 7 b hb2
  have h7 : (10 : ℕ) ^ 7 = 10000000 := by norm_num
  have hfmt : fmtFInt 7 (roundScaled 7 b) =
      fracRender 7 (roundScaled 7 b).natAbs := by
    rw [fmtFInt, if_neg (by omega)]
  have habs : (roundScaled 7 b).natAbs ≤ 99 * 10 ^ 7 := by
    have h77 : (10 : ℤ) ^ 7 = 10000000 := by norm_num
    rw [h77] at hm1
    rw [h7]
    omega
  have hdiv : (roundScaled 7 b).natAbs / 10 ^ 7 < 10 ^ 2 := by
    rw [h7] at habs ⊢
    have h2 : (10 : ℕ) ^ 2 = 100 := by norm_num
    rw [h2]
    omega
  have hnl : (natChars ((roundScaled 7 b).natAbs / 10 ^ 7)).length ≤ 2 :=
    natChars_length_le (by norm_num) hdiv
  have hmod : (roundScaled 7 b).natAbs % 10 ^ 7 < 10 ^ 7 :=
    Nat.mod_lt _ (by positivity)
  have hcl : (fracRender 7 (roundScaled 7 b).natAbs).length ≤ 10 := by
    rw [fracRender, List.length_append, List.length_cons,
      padZeros_length (by norm_num) hmod]
    omega
  refine ⟨10 - (fracRender 7 (roundScaled 7 b).natAbs).length,
    fracRender 7 (roundScaled 7 b).natAbs, ?_, ?_, ?_, ?_⟩
  · rw [boxField, hfmt, padLeftCh]
    congr 1
    congr 1
    omega
  · rcases fracRender_head 7 (roundScaled 7 b).natAbs with ⟨c, t, hct, -⟩
    rw [hct]
    exact List.cons_ne_nil c t
  · exact fracRender_no_space 7 _
  · rw [← hfmt, ← padLeftCh_zero (fmtFInt 7 (roundScaled 7 b))]
    exact pyFloat_padded_fmtFInt 0 7 _ (by norm_num)

/-- The three-field box line splits and parses. -/
theorem boxFields_parse (b1 b2 b3 : ℚ)
    (g1 : 0 ≤ b1) (g1' : b1 < 99) (g2 : 0 ≤ b2) (g2' : b2 < 99)
    (g3 : 0 ≤ b3) (g3' : b3 < 99) :
    ∃ v1 v2 v3, (splitWs (boxField b1 ++ boxField b2 ++ boxField b3)).mapM
      (fun t => match pyFloat t with
                | some v => Except.ok v
                | none => Except.error GroError.valueError) =
      Except.ok [v1, v2, v3] := by
  obtain ⟨k1, c1, e1, ne1, ns1, p1⟩ := boxField_decomp b1 g1 g1'
  obtain ⟨k2, c2, e2, ne2, ns2, p2⟩ := boxField_decomp b2 g2 g2'
  obtain ⟨k3, c3, e3, ne3, ns3, p3⟩ := boxField_decomp b3 g3 g3'
  refine ⟨((roundScaled 7 b1 : ℤ) : ℚ) / 10 ^ 7,
    ((roundScaled 7 b2 : ℤ) : ℚ) / 10 ^ 7,
    ((roundScaled 7 b3 : ℤ) : ℚ) / 10 ^ 7, ?_⟩
  rw [List.append_assoc, e1, e2, e3,
    splitWs_three_padded k1 k2 k3 c1 c2 c3 ne1 ne2 ne3 ns1 ns2 ns3]
  simp only [List.mapM_cons, List.mapM_nil, p1, p2, p3, bind, Except.bind,
    pure, Except.pure]

theorem boxLine_parses (box : Option (Vec3 × Vec3 × Vec3))
    (hbox : box = none ∨ ∃ m, box = some m ∧ boxIsRect m = true ∧
      (0 ≤ m.1.1 ∧ m.1.1 < 99) ∧ (0 ≤ m.2.1.2.1 ∧ m.2.1.2.1 < 99) ∧
      (0 ≤ m.2.2.2.2 ∧ m.2.2.2.2 < 99)) :
    ∃ v1 v2 v3, (splitWs (boxLineChars box)).mapM
      (fun t => match pyFloat t with
                | some v => Except.ok v
                | none => Except.error GroError.valueError) =
      Except.ok [v1, v2, v3] := by
  rcases hbox with rfl | ⟨m, rfl, hrect, hb1, hb2, hb3⟩
  · exact boxFields_parse 11 11 11 (by norm_num) (by norm_num) (by norm_num)
      (by norm_num) (by norm_num) (by norm_num)
  · rw [boxLineChars, if_pos hrect]
    exact boxFields_parse _ _ _ hb1.1 hb1.2 hb2.1 hb2.2 hb3.1 hb3.2

/-- Every atom record of a bounded model parses back to the rounded
position, and its last two decimal points are `P + 5` columns apart. -/
theorem atomRecord_ok (sys : Interchange) (P j : ℕ) (a : Atom) (hP : 1 ≤ P)
    (hlen : sys.positions.length = sys.atoms.length)
    (hbound : ∀ v ∈ sys.positions,
      (-999 < v.1 ∧ v.1 < 999) ∧ (-999 < v.2.1 ∧ v.2.1 < 999) ∧
      (-999 < v.2.2 ∧ v.2.2 < 999))
    (htype : ∀ t ∈ buildTypemap sys.atoms, t.toList.length ≤ 5)
    (hja : sys.atoms.get? j = some a) :
    readCoordLine (P + 5) (atomRecord sys P j a) =
      .ok (roundVec P ((sys.positions.get? j).getD (0, 0, 0))) ∧
    ∃ rest, (periodIdxs (atomRecord sys P j a)).reverse =
      (20 + 2 * (P + 5) + 4) :: ((20 + (P + 5) + 4) :: rest) := by
  have hjlt : j < sys.atoms.length := by
    by_contra h
    rw [List.get?_eq_none.mpr (by omega)] at hja
    exact Option.noConfusion hja
  obtain ⟨v, hv⟩ : ∃ v, sys.positions.get? j = some v := by
    cases hvv : sys.positions.get? j with
    | none =>
      exact absurd (List.get?_eq_none.mp hvv) (by omega)
    | some v => exact ⟨v, rfl⟩
  obtain ⟨hb1, hb2, hb3⟩ := hbound v (List.get?_mem hv)
  have hname : ((((buildTypemap sys.atoms).get? j).getD "").toList).length
      ≤ 5 := by
    cases ht : (buildTypemap sys.atoms).get? j with
    | none => simp
    | some t => simpa using htype t (List.get?_mem ht)
  have hrn : (a.residue_name.toList.take 5).length ≤ 5 := by
    rw [List.length_take]
    omega
  rw [atomRecord, hv, Option.getD_some]
  constructor
  · exact readCoordLine_groAtomLine P ((a.residue_index + 1) % 100000)
      ((j + 1) % 100000) (a.residue_name.toList.take 5)
      (((buildTypemap sys.atoms).get? j).getD "").toList v hP
      (Nat.mod_lt _ (by norm_num)) (Nat.mod_lt _ (by norm_num)) hrn hname
      hb1.1 hb1.2 hb2.1 hb2.2 hb3.1 hb3.2
  · exact periodIdxs_groAtomLine P ((a.residue_index + 1) % 100000)
      ((j + 1) % 100000) (a.residue_name.toList.take 5)
      (((buildTypemap sys.atoms).get? j).getD "").toList v hP
      (Nat.mod_lt _ (by norm_num)) (Nat.mod_lt _ (by norm_num)) hrn hname
      hb1.1 hb1.2 hb2.1 hb2.2 hb3.1 hb3.2

/-- Every virtual-site record parses back to the origin, rounded. -/
theorem vsRecord_ok (P idx : ℕ) (hP : 1 ≤ P) (hidx : idx < 100000) :
    readCoordLine (P + 5) (groAtomLine P 1 [] "VS".toList idx (0, 0, 0)) =
      .ok (roundVec P (0, 0, 0)) :=
  readCoordLine_groAtomLine P 1 idx [] "VS".toList (0, 0, 0) hP
    (by norm_num) hidx (by norm_num) (by decide)
    (by norm_num) (by norm_num) (by norm_num) (by norm_num)
    (by norm_num) (by norm_num)

theorem roundScaled_zero (P : ℕ) : roundScaled P 0 = 0 := by
  rw [roundScaled]
  norm_num

/-- Every written particle record parses back to its stored value. -/
theorem groRecords_parse (sys : Interchange) (P : ℕ) (hP : 1 ≤ P)
    (hlen : sys.positions.length = sys.atoms.length)
    (hbound : ∀ v ∈ sys.positions,
      (-999 < v.1 ∧ v.1 < 999) ∧ (-999 < v.2.1 ∧ v.2.1 < 999) ∧
      (-999 < v.2.2 ∧ v.2.2 < 999))
    (htype : ∀ t ∈ buildTypemap sys.atoms, t.toList.length ≤ 5)
    (hvs : ∀ kv ∈ buildVirtualSiteMap sys, kv.2 < 100000) :
    List.Forall₂ (fun rec v => readCoordLine (P + 5) rec = .ok v)
      (groRecords sys P) (groVals sys P) := by
  rw [groRecords, groVals]
  apply forall₂_append_of
  · rw [List.forall₂_map_left_iff, List.forall₂_map_right_iff,
      List.forall₂_same]
    intro p hp
    have hget : sys.atoms.get? p.1 = some p.2 := by
      rw [List.get?_eq_getElem?]
      exact List.mem_enum_iff_getElem?.mp hp
    exact (atomRecord_ok sys P p.1 p.2 hP hlen hbound htype hget).1
  · rw [List.forall₂_map_left_iff, List.forall₂_map_right_iff,
      List.forall₂_same]
    intro kv hkv
    exact vsRecord_ok P kv.2 hP (hvs kv hkv)

set_option maxHeartbeats 1000000 in
/-- The reader recovers the precision the writer used, from the decimal
points of the first record. -/
theorem gro_infer (sys : Interchange) (P : ℕ) (hP : 1 ≤ P)
    (hlen : sys.positions.length = sys.atoms.length)
    (hbound : ∀ v ∈ sys.positions,
      (-999 < v.1 ∧ v.1 < 999) ∧ (-999 < v.2.1 ∧ v.2.1 < 999) ∧
      (-999 < v.2.2 ∧ v.2.2 < 999))
    (htype : ∀ t ∈ buildTypemap sys.atoms, t.toList.length ≤ 5)
    (hne : sys.atoms ≠ []) :
    inferCoordPrecision (toGroLines sys P) = .ok P := by
  obtain ⟨a0, t0, hat⟩ := List.exists_cons_of_ne_nil hne
  have h0 : sys.atoms.get? 0 = some a0 := by rw [hat]; rfl
  have henum : sys.atoms.enum.get? 0 = some (0, a0) := by
    rw [List.get?_eq_getElem?, List.getElem?_enum, ← List.get?_eq_getElem?,
      h0]
    rfl
  have hrec0 : (groRecords sys P).get? 0 = some (atomRecord sys P 0 a0) := by
    rw [groRecords,
      List.get?_append (by
        simp only [List.length_map, List.enum_length, hat, List.length_cons]
        omega),
      List.get?_map, henum, Option.map_some']
  have hline2 : (toGroLines sys P).get? 2 = some (atomRecord sys P 0 a0) := by
    rw [toGroLines_decomp sys P]
    show (groRecords sys P ++ [boxLineChars sys.box]).get? 0 = _
    rw [List.get?_append (by
      rw [groRecords]
      simp only [List.length_append, List.length_map, List.enum_length, hat,
        List.length_cons]
      omega)]
    exact hrec0
  obtain ⟨rest, hperiods⟩ :=
    (atomRecord_ok sys P 0 a0 hP hlen hbound htype h0).2
  have key : (periodIdxs (((toGroLines sys P).get? 2).getD [])).reverse =
      (20 + 2 * (P + 5) + 4) :: ((20 + (P + 5) + 4) :: rest) := by
    rw [hline2, Option.getD_some, hperiods]
  rw [inferCoordPrecision, key]
  show Except.ok (20 + 2 * (P + 5) + 4 - (20 + (P + 5) + 4) - 5) =
    (Except.ok P : Except GroError ℕ)
  congr 1
  omega

/-- The reader's coordinate loop over the written file returns all the
rounded positions. -/
theorem gro_positions_read (sys : Interchange) (P : ℕ) (hP : 1 ≤ P)
    (hlen : sys.positions.length = sys.atoms.length)
    (hbound : ∀ v ∈ sys.positions,
      (-999 < v.1 ∧ v.1 < 999) ∧ (-999 < v.2.1 ∧ v.2.1 < 999) ∧
      (-999 < v.2.2 ∧ v.2.2 < 999))
    (htype : ∀ t ∈ buildTypemap sys.atoms, t.toList.length ≤ 5)
    (hvs : ∀ kv ∈ buildVirtualSiteMap sys, kv.2 < 100000) :
    readCoordLines (P + 5) (toGroLines sys P) 2
      (sys.positions.length + (buildVirtualSiteMap sys).length) =
      .ok (groVals sys P) := by
  have hrlen : (groRecords sys P).length =
      sys.positions.length + (buildVirtualSiteMap sys).length := by
    rw [groRecords]
    simp only [List.length_append, List.length_map, List.enum_length]
    omega
  obtain ⟨hgetrec, -, -⟩ :=
    toGroLines_get?_record sys P (groRecords sys P) (toGroLines_decomp sys P)
  rw [← hrlen]
  exact readCoordLines_of_forall₂ (P + 5) (toGroLines sys P)
    (groRecords sys P) (groVals sys P) 2 (fun j hj => hgetrec j hj)
    (groRecords_parse sys P hP hlen hbound htype hvs)

/-- The read-back value at an atom index is the rounded position. -/
theorem groVals_get?_atom (sys : Interchange) (P i : ℕ) (v : Vec3)
    (hlen : sys.positions.length = sys.atoms.length)
    (hiv : sys.positions.get? i = some v) :
    (groVals sys P).get? i = some (roundVec P v) := by
  have hil : i < sys.positions.length := by
    by_contra h
    rw [List.get?_eq_none.mpr (by omega)] at hiv
    exact Option.noConfusion hiv
  obtain ⟨a, ha⟩ : ∃ a, sys.atoms.get? i = some a := by
    cases haa : sys.atoms.get? i with
    | none => exact absurd (List.get?_eq_none.mp haa) (by omega)
    | some a => exact ⟨a, rfl⟩
  have henum : sys.atoms.enum.get? i = some (i, a) := by
    rw [List.get?_eq_getElem?, List.getElem?_enum, ← List.get?_eq_getElem?,
      ha]
    rfl
  rw [groVals,
    List.get?_append (by
      simp only [List.length_map, List.enum_length]
      omega),
    List.get?_map, henum, Option.map_some']
  show some (roundVec P ((sys.positions.get? i).getD (0, 0, 0))) = _
  rw [hiv, Option.getD_some]

/-- C10: for every virtual site, the coordinate writer emits the record
with coordinates `(0.0, 0.0, 0.0)`, atom name `VS`, residue index 1 and
an empty residue name, regardless of the site's placement parameters; so
a write/read round trip yields the origin for the site, never its placed
position. -/
theorem vsite_gro_record (sys : Interchange) (P j : ℕ)
    (kv : SlotKey × ℕ) (hP : 1 ≤ P)
    (hj : (buildVirtualSiteMap sys).get? j = some kv)
    (hidx : kv.2 < 100000) :
    (toGroLines sys P).get? (2 + (sys.atoms.length + j)) =
      some (groAtomLine P 1 [] "VS".toList kv.2 (0, 0, 0)) ∧
    readCoordLine (P + 5) (groAtomLine P 1 [] "VS".toList kv.2 (0, 0, 0)) =
      .ok (0, 0, 0) := by
  have hjlen : j < (buildVirtualSiteMap sys).length := by
    by_contra h
    rw [List.get?_eq_none.mpr (by omega)] at hj
    exact Option.noConfusion hj
  constructor
  · rw [toGroLines_decomp sys P, Nat.add_comm 2 (sys.atoms.length + j)]
    show (groRecords sys P ++ [boxLineChars sys.box]).get?
      (sys.atoms.length + j) = _
    rw [List.get?_append (by
        rw [groRecords]
        simp only [List.length_append, List.length_map, List.enum_length]
        omega),
      groRecords,
      List.get?_append_right (by
        simp only [List.length_map, List.enum_length]
        omega),
      List.get?_map]
    simp only [List.length_map, List.enum_length, Nat.add_sub_cancel_left,
      hj, Option.map_some']
  · rw [vsRecord_ok P kv.2 hP hidx]
    have hz : roundVec P ((0 : ℚ), (0 : ℚ), (0 : ℚ)) =
        ((0 : ℚ), (0 : ℚ), (0 : ℚ)) := by
      rw [roundVec]
      simp [roundScaled_zero]
    rw [hz]

/-- The virtual-site record of the divalent model: written at slot 5 of
the file, all-zero coordinates, and read back as the origin. -/
theorem vsite_gro_record_witness :
    (toGroLines divSys 3).get? (2 + (divSys.atoms.length + 0)) =
      some (groAtomLine 3 1 [] "VS".toList (SlotKey.vsite divKey, 4).2
        (0, 0, 0)) ∧
    readCoordLine (3 + 5) (groAtomLine 3 1 []
      "VS".toList (SlotKey.vsite divKey, 4).2 (0, 0, 0)) = .ok (0, 0, 0) :=
  vsite_gro_record divSys 3 0 (SlotKey.vsite divKey, 4) (by norm_num)
    (by rfl) (by norm_num)

/-- C7: writing a coordinate file at any precision `P ∈ {3,...,8}` and
re-reading it (the reader infers `P` from the decimal-point spacing of
the first record and parses fixed-width fields accordingly) reproduces
every particle position to within `10^-P` nanometers — provided every
record stays inside its fixed-width columns: coordinates within
`(-999, 999)`, atom-type names of at most five characters, virtual-site
indices below `10^5`, at least one atom, and a default or rectangular
box with diagonal entries in `[0, 99)`. -/
theorem gro_round_trip (sys : Interchange) (P : ℕ)
    (hP3 : 3 ≤ P) (hP8 : P ≤ 8)
    (hlen : sys.positions.length = sys.atoms.length)
    (hne : sys.atoms ≠ [])
    (hbound : ∀ v ∈ sys.positions,
      (-999 < v.1 ∧ v.1 < 999) ∧ (-999 < v.2.1 ∧ v.2.1 < 999) ∧
      (-999 < v.2.2 ∧ v.2.2 < 999))
    (htype : ∀ t ∈ buildTypemap sys.atoms, t.toList.length ≤ 5)
    (hvs : ∀ kv ∈ buildVirtualSiteMap sys, kv.2 < 100000)
    (hbox : sys.box = none ∨ ∃ m, sys.box = some m ∧ boxIsRect m = true ∧
      (0 ≤ m.1.1 ∧ m.1.1 < 99) ∧ (0 ≤ m.2.1.2.1 ∧ m.2.1.2.1 < 99) ∧
      (0 ≤ m.2.2.2.2 ∧ m.2.2.2.2 < 99)) :
    ∃ r, fromGroLines (toGroLines sys P) = .ok r ∧
      r.positions.length =
        sys.positions.length + (buildVirtualSiteMap sys).length ∧
      ∀ i v, sys.positions.get? i = some v →
        ∃ w, r.positions.get? i = some w ∧
          |v.1 - w.1| < (1 / 10 : ℚ) ^ P ∧
          |v.2.1 - w.2.1| < (1 / 10 : ℚ) ^ P ∧
          |v.2.2 - w.2.2| < (1 / 10 : ℚ) ^ P := by
  have hP : 1 ≤ P := by omega
  have hinf := gro_infer sys P hP hlen hbound htype hne
  have hcnt : pyIntOfStr (((toGroLines sys P).get? 1).getD []) =
      some (((sys.positions.length + (buildVirtualSiteMap sys).length : ℕ) :
        ℤ)) := by
    obtain ⟨-, -, hgetcnt⟩ := toGroLines_get?_record sys P (groRecords sys P)
      (toGroLines_decomp sys P)
    rw [hgetcnt, Option.getD_some, ← padLeftCh_zero (natChars
      (sys.positions.length + (buildVirtualSiteMap sys).length))]
    exact pyIntOfStr_padLeft_natChars 0 _
  have hread := gro_positions_read sys P hP hlen hbound htype hvs
  have hrlen : (groRecords sys P).length =
      sys.positions.length + (buildVirtualSiteMap sys).length := by
    rw [groRecords]
    simp only [List.length_append, List.length_map, List.enum_length]
    omega
  have hboxget : (toGroLines sys P).get?
      (2 + (sys.positions.length + (buildVirtualSiteMap sys).length)) =
      some (boxLineChars sys.box) := by
    obtain ⟨-, hgetbox, -⟩ := toGroLines_get?_record sys P (groRecords sys P)
      (toGroLines_decomp sys P)
    rw [← hrlen]
    exact hgetbox
  obtain ⟨v1, v2, v3, hbp⟩ := boxLine_parses sys.box hbox
  have hvlen : (groVals sys P).length =
      sys.positions.length + (buildVirtualSiteMap sys).length := by
    rw [groVals]
    simp only [List.length_append, List.length_map, List.enum_length]
    omega
  refine ⟨⟨groVals sys P, ((v1, 0, 0), (0, v2, 0), (0, 0, v3))⟩, ?_, ?_, ?_⟩
  · rw [fromGroLines]
    simp only [hinf, hcnt, Int.toNat_natCast, hread, hboxget,
      Option.getD_some, hbp, bind, Except.bind]
  · exact hvlen
  · intro i v hiv
    refine ⟨roundVec P v, groVals_get?_atom sys P i v hlen hiv, ?_, ?_, ?_⟩
    all_goals {
      have h10 : (0 : ℚ) < 10 ^ P := by positivity
      have hhalf : (1 : ℚ) / (2 * 10 ^ P) < (1 / 10) ^ P := by
        rw [div_pow, one_pow]
        exact one_div_lt_one_div_of_lt h10 (by nlinarith)
      first
      | exact lt_of_le_of_lt (roundScaled_close P v.1) hhalf
      | exact lt_of_le_of_lt (roundScaled_close P v.2.1) hhalf
      | exact lt_of_le_of_lt (roundScaled_close P v.2.2) hhalf
    }

/-- The round trip instantiated on the two-atom model at precision 3. -/
theorem gro_round_trip_witness :
    ∃ r, fromGroLines (toGroLines groSys 3) = .ok r ∧
      r.positions.length =
        groSys.positions.length + (buildVirtualSiteMap groSys).length ∧
      ∀ i v, groSys.positions.get? i = some v →
        ∃ w, r.positions.get? i = some w ∧
          |v.1 - w.1| < (1 / 10 : ℚ) ^ 3 ∧
          |v.2.1 - w.2.1| < (1 / 10 : ℚ) ^ 3 ∧
          |v.2.2 - w.2.2| < (1 / 10 : ℚ) ^ 3 :=
  gro_round_trip groSys 3 (by norm_num) (by norm_num) (by rfl)
    (by simp [groSys]) (by decide) (by decide)
    (fun kv hkv => absurd hkv (List.not_mem_nil kv)) (Or.inl rfl)

/-- A coordinate of magnitude 123456 overflows the fixed-width field at
precision 3: the written file has a record whose columns shift, and
re-reading fails with a `ValueError` instead of reproducing the
position. -/
theorem gro_round_trip_overflow :
    wideSys.positions ≠ [] ∧
    fromGroLines (toGroLines wideSys 3) = .error .valueError := by
  constructor
  · simp [wideSys]
  · rfl

end OffGromacs
